import Mathlib

/-!
# iSizaPay cloud functions: offline transaction sync

A shallow embedding of `functions/index.js`: the two batch entry points
`syncOfflineTransactionsToSolana` and `processBatchTransactions`, their helpers
`createSolanaTransaction`, `sendSolanaTransaction` and `updateTransactionResults`,
and the part of the Firestore write batch and of the Solana client they drive.

The external collaborators (Solana RPC node, web3.js constructors, the clock and the
Firestore backend) are an explicit environment `Env`; the durable store is an explicit
`Store` value that is passed in and returned; every call to a collaborator is recorded
in an event log.
-/

namespace ISizaPay

/-! ## Data model -/

/-- Field values of a Firestore document. `serverTimestamp` is the sentinel
`admin.firestore.FieldValue.serverTimestamp()`, replaced by `timestamp t` at commit. -/
inductive Value where
  | str (s : String)
  | num (n : Int)
  | serverTimestamp
  | timestamp (t : Nat)
  /-- The object `Object.prototype` itself (what `obj["__proto__"]` reads). -/
  | objectPrototype
  deriving DecidableEq, Repr

/-- Lookup of an own property (of a field, for a document) by its key. -/
def getField {β : Type} : List (String × β) → String → Option β
  | [], _ => none
  | (k, v) :: rest, key => if k = key then some v else getField rest key

/-- Definition of an own property (of a field, for a document): overwrites an existing
key in place, appends a new one. -/
def setField {β : Type} : List (String × β) → String → β → List (String × β)
  | [], key, v => [(key, v)]
  | (k, w) :: rest, key, v =>
    if k = key then (k, v) :: rest else (k, w) :: setField rest key v

/-- Own keys of an object, listed in insertion order (the order carries no meaning). -/
def keysOf {β : Type} (obj : List (String × β)) : List String := obj.map Prod.fst

/-- The names of the properties a plain object inherits from `Object.prototype`. -/
def objectPrototypeKeys : List String :=
  ["constructor", "__defineGetter__", "__defineSetter__", "hasOwnProperty",
   "__lookupGetter__", "__lookupSetter__", "isPrototypeOf", "propertyIsEnumerable",
   "toString", "valueOf", "__proto__", "toLocaleString"]

/-- What a property read `obj[key]` on a plain object gives: `undefined`, the value of an
own property, or the function or object inherited from `Object.prototype`. -/
inductive Property (β : Type) where
  | undefined
  | own (v : β)
  | inherited (name : String)
  deriving DecidableEq, Repr

/-- Property read `obj[key]` on a plain object given by its own properties: an own
property shadows an inherited one. -/
def readProperty {β : Type} (obj : List (String × β)) (key : String) : Property β :=
  match getField obj key with
  | some v => .own v
  | none => if key ∈ objectPrototypeKeys then .inherited key else .undefined

/-- Property write `obj[key] = v` on a plain object, for a value `v` that is not an
object: the key `__proto__` reaches the setter of `Object.prototype`, which ignores such a
value and stores nothing; every other key becomes (or stays) an own property. -/
def writeProperty {β : Type} (obj : List (String × β)) (key : String) (v : β) :
    List (String × β) :=
  if key = "__proto__" then obj else setField obj key v

/-- A Firestore document: its fields. -/
abbrev Doc := List (String × Value)

/-- One queued offline payment, as sent by the client. The fields are those the
functions read (`id`, `customerId`, `vendorId`, `totalAmount`) and `createdAt`. -/
structure OfflineTransaction where
  id : String
  customerId : String
  vendorId : String
  totalAmount : Int
  createdAt : Nat
  deriving DecidableEq, Repr

/-- The request object `tx` seen as a set of fields (what `...tx` spreads). -/
def OfflineTransaction.toDoc (tx : OfflineTransaction) : Doc :=
  [("id", .str tx.id), ("customerId", .str tx.customerId), ("vendorId", .str tx.vendorId),
   ("totalAmount", .num tx.totalAmount), ("createdAt", .timestamp tx.createdAt)]

/-! ## Solana client (web3.js) -/

structure PublicKey where
  key : String
  deriving DecidableEq, Repr

structure TransferInstruction where
  fromPubkey : PublicKey
  toPubkey : PublicKey
  lamports : Int
  deriving DecidableEq, Repr

/-- A web3.js `Transaction` as far as the functions touch it. -/
structure Transaction where
  instructions : List TransferInstruction
  recentBlockhash : Option String
  deriving DecidableEq, Repr

/-- A web3.js `Transaction` has no `success` property: reading it gives `undefined`. -/
def Transaction.success (_t : Transaction) : Option Bool := none

/-- A web3.js `Transaction` has no `transaction` property: reading it gives `undefined`. -/
def Transaction.transaction (_t : Transaction) : Option String := none

def LAMPORTS_PER_SOL : Int := 1000000000

/-- What the outside world does during one invocation of a cloud function.
Requests made for the transaction at position `i` of the batch are indexed by `i`. -/
structure Env where
  /-- `new PublicKey(s)`: the key, or the message of the error it throws. -/
  publicKey : String → Except String PublicKey
  /-- `SystemProgram.transfer(...)`: the instruction, or the message of the error. -/
  transfer : PublicKey → PublicKey → Int → Except String TransferInstruction
  /-- `solanaConnection.getLatestBlockhash()` for the transaction at position `i`. -/
  getLatestBlockhash : Nat → Except String String
  /-- `Date.now()` when the transaction at position `i` is sent. -/
  dateNow : Nat → Nat
  /-- `collection(...).doc(id)`: whether the call returns a document reference for this
  id; it throws otherwise (the empty string, a path that does not name a document). -/
  documentIdAccepted : String → Bool
  /-- Whether the Firestore backend accepts the write batch of this invocation. -/
  commitAvailable : Bool
  /-- The time the backend substitutes for `serverTimestamp()`. -/
  serverTime : Nat

/-! ## Durable store (Firestore) -/

inductive Collection where
  | offline_transactions
  | synced_transactions
  deriving DecidableEq, Repr

/-- The two collections, each a map from document id to document. -/
structure Store where
  offline_transactions : String → Option Doc
  synced_transactions : String → Option Doc

def Store.read (s : Store) : Collection → String → Option Doc
  | .offline_transactions => s.offline_transactions
  | .synced_transactions => s.synced_transactions

def Store.write (s : Store) (c : Collection) (id : String) (d : Option Doc) : Store :=
  match c with
  | .offline_transactions =>
    { s with offline_transactions := fun k => if k = id then d else s.offline_transactions k }
  | .synced_transactions =>
    { s with synced_transactions := fun k => if k = id then d else s.synced_transactions k }

/-- One write staged on a Firestore `WriteBatch`. -/
inductive WriteOp where
  | set (c : Collection) (id : String) (data : Doc)
  | delete (c : Collection) (id : String)
  | update (c : Collection) (id : String) (data : Doc)
  deriving DecidableEq, Repr

/-- The backend replaces every `serverTimestamp()` sentinel by the commit time. -/
def resolveTimestamps (ts : Nat) (d : Doc) : Doc :=
  d.map fun p => (p.1, if p.2 = Value.serverTimestamp then Value.timestamp ts else p.2)

/-- Merge of `update`: every given field is written into the existing document. -/
def mergeFields (d : Doc) : Doc → Doc
  | [] => d
  | (k, v) :: rest => mergeFields (setField d k v) rest

/-- Document ids Firestore reserves: those of the form `__.*__`. -/
def isReservedId (id : String) : Bool :=
  decide (4 ≤ id.toList.length) && id.toList.take 2 == ['_', '_'] &&
    id.toList.drop (id.toList.length - 2) == ['_', '_']

/-- Firestore semantics of one write: `set` creates or replaces the document, `delete`
removes it (also when absent), `update` needs the document to exist and fails otherwise;
a write to a reserved id is refused. -/
def applyOp (ts : Nat) (s : Store) : WriteOp → Option Store
  | .set c id data =>
    if isReservedId id then none else some (s.write c id (some (resolveTimestamps ts data)))
  | .delete c id => if isReservedId id then none else some (s.write c id none)
  | .update c id data =>
    if isReservedId id then none else
      match s.read c id with
      | none => none
      | some d => some (s.write c id (some (mergeFields d (resolveTimestamps ts data))))

def applyOps (ts : Nat) : Store → List WriteOp → Option Store
  | s, [] => some s
  | s, op :: rest =>
    match applyOp ts s op with
    | none => none
    | some s1 => applyOps ts s1 rest

/-- The call `batch.commit()`: all staged writes apply in order, or none does. `none` is a rejected
commit (backend unavailable, an `update` of a missing document, a reserved id). -/
def commit (env : Env) (s : Store) (ops : List WriteOp) : Option Store :=
  if env.commitAvailable then applyOps env.serverTime s ops else none

/-! ## Responses and event log -/

structure ErrorEntry where
  transactionId : String
  error : String
  deriving DecidableEq, Repr

/-- The object `results` of `syncOfflineTransactionsToSolana`. -/
structure SyncResults where
  success : Bool
  signatures : List (String × String)
  errors : List ErrorEntry
  processed : Nat
  deriving DecidableEq, Repr

/-- What `syncOfflineTransactionsToSolana` returns: `results`, or `{success: false, error}`. -/
inductive SyncResponse where
  | results (r : SyncResults)
  | failure (error : String)
  deriving DecidableEq, Repr

/-- The object `results` of `processBatchTransactions`. -/
structure BatchResults where
  success : Bool
  processed : Nat
  failed : Nat
  signatures : List (String × Option String)
  deriving DecidableEq, Repr

/-- What `processBatchTransactions` returns: `results`, or `{success: false, error}`. -/
inductive BatchResponse where
  | results (r : BatchResults)
  | failure (error : String)
  deriving DecidableEq, Repr

/-- Calls that leave the function. -/
inductive Event where
  | build (index : Nat) (tx : OfflineTransaction)
  | send (index : Nat) (t : Transaction)
  | stage (op : WriteOp)
  | commit (ok : Bool)
  deriving DecidableEq, Repr

/-- The `transactions` field of a request payload. -/
inductive TransactionsField where
  | undefined
  | null
  | bool (b : Bool)
  | num (n : Int)
  | str (s : String)
  | object
  | array (txs : List OfflineTransaction)
  deriving DecidableEq, Repr

/-- JavaScript truthiness of the field. -/
def TransactionsField.truthy : TransactionsField → Bool
  | .undefined => false
  | .null => false
  | .bool b => b
  | .num n => n != 0
  | .str s => s != ""
  | .object => true
  | .array _ => true

def TransactionsField.isArray : TransactionsField → Bool
  | .array _ => true
  | _ => false

def TransactionsField.elements : TransactionsField → List OfflineTransaction
  | .array txs => txs
  | _ => []

/-- A request payload `data`. -/
structure Payload where
  transactions : TransactionsField

/-- Result of an invocation: the response, the store afterwards, the calls made. -/
structure Outcome (ρ : Type) where
  response : ρ
  store : Store
  log : List Event

/-! ## Helpers of `index.js` -/

/-- Helper `createSolanaTransaction(txData)` (lines 324-345), called for position `i`. -/
def createSolanaTransaction (env : Env) (i : Nat) (txData : OfflineTransaction) :
    Except String Transaction :=
  let body : Except String Transaction := do
    let fromPubkey ← env.publicKey txData.customerId
    let toPubkey ← env.publicKey txData.vendorId
    let transferInstruction ← env.transfer fromPubkey toPubkey
      (txData.totalAmount * LAMPORTS_PER_SOL)
    let blockhash ← env.getLatestBlockhash i
    pure { instructions := [transferInstruction], recentBlockhash := some blockhash }
  match body with
  | .ok transaction => .ok transaction
  | .error message => .error ("Failed to create Solana transaction: " ++ message)

/-- Helper `sendSolanaTransaction(transaction)` (lines 348-359): the mock signature. -/
def sendSolanaTransaction (env : Env) (i : Nat) (_transaction : Transaction) :
    Except String String :=
  .ok ("mock_signature_" ++ toString (env.dateNow i))

/-- The object literal of lines 375-380, for the value read from `results.signatures`. -/
def syncedRecordWith (tx : OfflineTransaction) (signature : Value) : Doc :=
  setField (setField (setField tx.toDoc "solanaSignature" signature)
    "syncedAt" .serverTimestamp) "status" (.str "confirmed")

/-- The record written to `synced_transactions` (lines 375-380) for a signature string. -/
def syncedRecord (tx : OfflineTransaction) (signature : String) : Doc :=
  syncedRecordWith tx (.str signature)

/-- The fields written into a failed pending record (lines 387-391). -/
def failedUpdate : Doc :=
  [("syncStatus", .str "failed"), ("errorMessage", .str "Failed to sync to Solana"),
   ("updatedAt", .serverTimestamp)]

/-- One iteration of the loop of `updateTransactionResults` (lines 367-392): the writes it
stages, or the message of the error it throws. `doc(tx.id)` throws for an id that names no
document. The branch `if (results.signatures[tx.id])` is taken when the value read is a
non-empty string or an inherited property; an inherited function is not a Firestore value,
so the `set` of that record throws, while `Object.prototype` (read for `__proto__`) is
staged as it is. -/
def stageOne (env : Env) (results : SyncResults) (tx : OfflineTransaction) :
    Except String (List WriteOp) :=
  if env.documentIdAccepted tx.id then
    match readProperty results.signatures tx.id with
    | .own signature =>
      if signature ≠ "" then
        .ok [.set .synced_transactions tx.id (syncedRecord tx signature),
             .delete .offline_transactions tx.id]
      else
        .ok [.update .offline_transactions tx.id failedUpdate]
    | .inherited name =>
      if name = "__proto__" then
        .ok [.set .synced_transactions tx.id (syncedRecordWith tx .objectPrototype),
             .delete .offline_transactions tx.id]
      else
        .error ("Cannot encode value: " ++ name)
    | .undefined => .ok [.update .offline_transactions tx.id failedUpdate]
  else
    .error "Value for argument documentPath is not a valid resource path."

/-- The loop of `updateTransactionResults` (lines 366-393): the writes staged, and the
message of the error that ended the loop early, if one was thrown. -/
def stageLoop (env : Env) (results : SyncResults) :
    List OfflineTransaction → List WriteOp × Option String
  | [] => ([], none)
  | tx :: rest =>
    match stageOne env results tx with
    | .error message => ([], some message)
    | .ok ops => (ops ++ (stageLoop env results rest).1, (stageLoop env results rest).2)

/-- Helper `updateTransactionResults(transactions, results)` (lines 362-401): stages the
writes and commits; an error thrown while staging, or a rejected commit, is caught and
only logged. Returns the store and the calls made. -/
def updateTransactionResults (env : Env) (store : Store)
    (transactions : List OfflineTransaction) (results : SyncResults) : Store × List Event :=
  let staged := stageLoop env results transactions
  match staged.2 with
  | some _ => (store, staged.1.map Event.stage)
  | none =>
    match commit env store staged.1 with
    | some store1 => (store1, staged.1.map Event.stage ++ [Event.commit true])
    | none => (store, staged.1.map Event.stage ++ [Event.commit false])

/-! ## `syncOfflineTransactionsToSolana` -/

/-- The body of the inner `try` (lines 35-47) for the transaction at position `i`. -/
def attempt (env : Env) (i : Nat) (tx : OfflineTransaction) : Except String String :=
  match createSolanaTransaction env i tx with
  | .error message => .error message
  | .ok solanaTx => sendSolanaTransaction env i solanaTx

/-- The loop `for (const tx of transactions)` (lines 33-56), from position `i`. -/
def syncLoop (env : Env) :
    Nat → List OfflineTransaction → SyncResults × List Event → SyncResults × List Event
  | _, [], acc => acc
  | i, tx :: rest, (results, log) =>
    match createSolanaTransaction env i tx with
    | .error message =>
      syncLoop env (i + 1) rest
        ({ results with errors := results.errors ++ [⟨tx.id, message⟩] },
         log ++ [Event.build i tx])
    | .ok solanaTx =>
      match sendSolanaTransaction env i solanaTx with
      | .error message =>
        syncLoop env (i + 1) rest
          ({ results with errors := results.errors ++ [⟨tx.id, message⟩] },
           log ++ [Event.build i tx, Event.send i solanaTx])
      | .ok signature =>
        syncLoop env (i + 1) rest
          ({ results with
              signatures := writeProperty results.signatures tx.id signature
              processed := results.processed + 1 },
           log ++ [Event.build i tx, Event.send i solanaTx])

/-- Cloud function `syncOfflineTransactionsToSolana` (lines 15-70). -/
def syncOfflineTransactionsToSolana (env : Env) (store : Store) (data : Payload) :
    Outcome SyncResponse :=
  let transactions := data.transactions
  if !transactions.truthy || !transactions.isArray then
    { response := .failure "Invalid transactions data", store := store, log := [] }
  else
    let init : SyncResults := { success := true, signatures := [], errors := [], processed := 0 }
    let (results, log) := syncLoop env 0 transactions.elements (init, [])
    let (store1, log1) := updateTransactionResults env store transactions.elements results
    { response := .results results, store := store1, log := log ++ log1 }

/-! ## `processBatchTransactions` -/

def batchSize : Nat := 5

/-- State of `processBatchTransactions`: `results`, the calls made, and the groups
(`transactions.slice(i, i + batchSize)`) visited so far. -/
structure BatchState where
  results : BatchResults
  log : List Event
  groups : List (List OfflineTransaction)

/-- The callbacks of `batch.map` (lines 247-260) for one group whose first element is at
position `i`. Each callback only increments a counter or writes its own key, so the
callbacks are run in the order in which `map` starts them. -/
def processGroup (env : Env) :
    Nat → List OfflineTransaction → BatchResults × List Event → BatchResults × List Event
  | _, [], acc => acc
  | i, tx :: rest, (results, log) =>
    match createSolanaTransaction env i tx with
    | .ok result =>
      if result.success = some true then
        processGroup env (i + 1) rest
          ({ results with
              processed := results.processed + 1
              signatures := writeProperty results.signatures tx.id result.transaction },
           log ++ [Event.build i tx])
      else
        processGroup env (i + 1) rest
          ({ results with failed := results.failed + 1 }, log ++ [Event.build i tx])
    | .error _ =>
      processGroup env (i + 1) rest
        ({ results with failed := results.failed + 1 }, log ++ [Event.build i tx])

/-- The loop `for (let i = 0; i < transactions.length; i += batchSize)` (lines 244-263). -/
def batchLoop (env : Env) (transactions : List OfflineTransaction) (i : Nat)
    (st : BatchState) : BatchState :=
  if i < transactions.length then
    let batch := (transactions.drop i).take batchSize
    let step := processGroup env i batch (st.results, st.log)
    batchLoop env transactions (i + batchSize)
      { results := step.1, log := step.2, groups := st.groups ++ [batch] }
  else st
termination_by transactions.length - i
decreasing_by
  simp only [batchSize]
  omega

/-- The state when the loop of `processBatchTransactions` starts (lines 235-240). -/
def initialBatchState : BatchState :=
  { results := { success := true, processed := 0, failed := 0, signatures := [] }
    log := []
    groups := [] }

/-- Cloud function `processBatchTransactions` (lines 225-274). -/
def processBatchTransactions (env : Env) (store : Store) (data : Payload) :
    Outcome BatchResponse :=
  let transactions := data.transactions
  if !transactions.truthy || !transactions.isArray then
    { response := .failure "Invalid transactions data", store := store, log := [] }
  else
    let final := batchLoop env transactions.elements 0 initialBatchState
    { response := .results final.results, store := store, log := final.log }

/-! ## Outcome of a batch, transaction by transaction -/

/-- The entries `(id, signature)` of the transactions whose build and submit succeed,
in input order; the first transaction of the list is at position `i`. -/
def successEntries (env : Env) : Nat → List OfflineTransaction → List (String × String)
  | _, [] => []
  | i, tx :: rest =>
    match attempt env i tx with
    | .ok signature => (tx.id, signature) :: successEntries env (i + 1) rest
    | .error _ => successEntries env (i + 1) rest

/-- The entries `{transactionId, error}` of the transactions whose build or submit fails,
in input order; the first transaction of the list is at position `i`. -/
def failureEntries (env : Env) : Nat → List OfflineTransaction → List ErrorEntry
  | _, [] => []
  | i, tx :: rest =>
    match attempt env i tx with
    | .ok _ => failureEntries env (i + 1) rest
    | .error message => ⟨tx.id, message⟩ :: failureEntries env (i + 1) rest

/-- The calls to the builder and the submitter a batch causes, in order. -/
def loopEvents (env : Env) : Nat → List OfflineTransaction → List Event
  | _, [] => []
  | i, tx :: rest =>
    match createSolanaTransaction env i tx with
    | .ok solanaTx => Event.build i tx :: Event.send i solanaTx :: loopEvents env (i + 1) rest
    | .error _ => Event.build i tx :: loopEvents env (i + 1) rest

/-- The ids of a batch. -/
def ids (txs : List OfflineTransaction) : List String := txs.map OfflineTransaction.id

/-- The entries of `results.signatures` when the loop ends: the successes whose id is an
ordinary key. -/
def storedEntries (env : Env) (i : Nat) (txs : List OfflineTransaction) :
    List (String × String) :=
  (successEntries env i txs).filter fun p => p.1 ≠ "__proto__"

/-- The pending and the confirmed document of `tx.id` after the committed writes of
`stageOne` for `tx`, from the two documents before; `none` when staging throws or the
backend refuses the writes. -/
def recordsAfter (env : Env) (ts : Nat) (results : SyncResults) (tx : OfflineTransaction)
    (pending confirmed : Option Doc) : Option (Option Doc × Option Doc) :=
  if env.documentIdAccepted tx.id = true ∧ isReservedId tx.id = false then
    match readProperty results.signatures tx.id with
    | .own signature =>
      if signature ≠ "" then
        some (none, some (resolveTimestamps ts (syncedRecord tx signature)))
      else
        pending.map fun d => (some (mergeFields d (resolveTimestamps ts failedUpdate)), confirmed)
    | .inherited _ => none
    | .undefined =>
      pending.map fun d => (some (mergeFields d (resolveTimestamps ts failedUpdate)), confirmed)
  else none

/-- The object `results` when the loop of `syncOfflineTransactionsToSolana` ends. -/
def finalResults (env : Env) (txs : List OfflineTransaction) : SyncResults :=
  { success := true
    signatures := storedEntries env 0 txs
    errors := failureEntries env 0 txs
    processed := (successEntries env 0 txs).length }

/-! ## Sample inputs -/

/-- A ledger that accepts every non-empty account key and every non-negative amount. -/
def sampleEnv : Env :=
  { publicKey := fun s => if s = "" then .error "Invalid public key input" else .ok ⟨s⟩
    transfer := fun a b n => if n < 0 then .error "Invalid amount" else .ok ⟨a, b, n⟩
    getLatestBlockhash := fun _ => .ok "blockhash"
    dateNow := fun i => 1000 + i
    documentIdAccepted := fun id => id != "" && !(id.toList.contains '/')
    commitAvailable := true
    serverTime := 2000 }

/-- The same ledger one tick later. -/
def laterEnv : Env := { sampleEnv with dateNow := fun i => 5000 + i, serverTime := 6000 }

/-- The same ledger with a Firestore backend that rejects the commit. -/
def offlineEnv : Env := { sampleEnv with commitAvailable := false }

def txA : OfflineTransaction :=
  { id := "a", customerId := "11111111111111111111111111111111",
    vendorId := "SysvarC1ock11111111111111111111111111111111", totalAmount := 1,
    createdAt := 10 }

/-- A transaction the builder rejects: its customer id is not an account key. -/
def txB : OfflineTransaction :=
  { id := "b", customerId := "",
    vendorId := "SysvarC1ock11111111111111111111111111111111", totalAmount := 1,
    createdAt := 11 }

/-- A transaction that is built and sent, with the id `__proto__`. -/
def txP : OfflineTransaction :=
  { id := "__proto__", customerId := "11111111111111111111111111111111",
    vendorId := "SysvarC1ock11111111111111111111111111111111", totalAmount := 1,
    createdAt := 12 }

/-- What the builder returns for `txA` on the sample ledger. -/
def builtA : Transaction :=
  { instructions :=
      [{ fromPubkey := ⟨"11111111111111111111111111111111"⟩
         toPubkey := ⟨"SysvarC1ock11111111111111111111111111111111"⟩
         lamports := 1000000000 }]
    recentBlockhash := some "blockhash" }

/-- A store holding a pending record for `a` and for `b`, and nothing else. -/
def sampleStore : Store :=
  { offline_transactions := fun k =>
      if k = "a" ∨ k = "b" then some [("id", .str k), ("syncStatus", .str "pending")] else none
    synced_transactions := fun _ => none }

/-- Whether the build or the submit of the transaction at position `p.1` fails. -/
def fails (env : Env) (p : Nat × OfflineTransaction) : Bool :=
  match attempt env p.1 p.2 with
  | .ok _ => false
  | .error _ => true

/-- The entry of `results.signatures` a transaction that succeeds gets. -/
def successOf (env : Env) (p : Nat × OfflineTransaction) : Option (String × String) :=
  match attempt env p.1 p.2 with
  | .ok signature => some (p.2.id, signature)
  | .error _ => none

/-- The entry of `results.errors` a transaction that fails gets. -/
def failureOf (env : Env) (p : Nat × OfflineTransaction) : Option ErrorEntry :=
  match attempt env p.1 p.2 with
  | .ok _ => none
  | .error message => some ⟨p.2.id, message⟩

/-- A transaction id is in exactly one of the two collections. -/
def inExactlyOne (s : Store) (id : String) : Prop :=
  (s.offline_transactions id).isSome ≠ (s.synced_transactions id).isSome

/-- The store predicate: every known transaction id is in exactly one collection. -/
def exactlyOneOf (known : String → Prop) (s : Store) : Prop :=
  ∀ id, known id → inExactlyOne s id

/-- The calls to the builder for the transactions of `l`, the first at position `i`. -/
def buildEvents (i : Nat) (l : List OfflineTransaction) : List Event :=
  (l.enumFrom i).map fun p => Event.build p.1 p.2

/-- The slice `transactions.slice(batchSize * k, batchSize * k + batchSize)`. -/
def slice (txs : List OfflineTransaction) (k : Nat) : List OfflineTransaction :=
  (txs.drop (batchSize * k)).take batchSize

/-- The state of the group loop after `m` groups. -/
def afterGroups (txs : List OfflineTransaction) (i : Nat) (st : BatchState) : Prop :=
  ∃ m, i = batchSize * m ∧
    st.groups = (List.range m).map (slice txs) ∧
    (m = 0 ∨ batchSize * (m - 1) < txs.length) ∧
    st.results = { success := true, processed := 0, failed := min i txs.length,
                   signatures := [] } ∧
    st.log = buildEvents 0 (txs.take i)

/-! ## Objects used as maps -/

theorem getField_setField_same {β : Type} (obj : List (String × β)) (k : String) (v : β) :
    getField (setField obj k v) k = some v := by
  induction obj with
  | nil => simp [setField, getField]
  | cons p rest ih =>
    obtain ⟨k1, w⟩ := p
    by_cases h : k1 = k
    · simp [setField, getField, h]
    · simp [setField, getField, h, ih]

theorem getField_setField_ne {β : Type} (obj : List (String × β)) (k key : String) (v : β)
    (h : k ≠ key) : getField (setField obj k v) key = getField obj key := by
  induction obj with
  | nil => simp [setField, getField, h]
  | cons p rest ih =>
    obtain ⟨k1, w⟩ := p
    by_cases h1 : k1 = k
    · subst h1
      simp [setField, getField, h]
    · simp [setField, getField, h1, ih]

theorem getField_eq_none_of_not_mem {β : Type} (obj : List (String × β)) (key : String)
    (h : key ∉ keysOf obj) : getField obj key = none := by
  induction obj with
  | nil => rfl
  | cons p rest ih =>
    obtain ⟨k1, w⟩ := p
    simp only [keysOf, List.map_cons, List.mem_cons, not_or] at h
    have h1 : ¬ k1 = key := fun e => h.1 e.symm
    simp only [getField, h1, if_false]
    exact ih h.2

theorem mem_keysOf_of_getField {β : Type} (obj : List (String × β)) (key : String) (v : β)
    (h : getField obj key = some v) : key ∈ keysOf obj := by
  by_contra hc
  rw [getField_eq_none_of_not_mem obj key hc] at h
  cases h

theorem setField_of_not_mem {β : Type} (obj : List (String × β)) (k : String) (v : β)
    (h : k ∉ keysOf obj) : setField obj k v = obj ++ [(k, v)] := by
  induction obj with
  | nil => rfl
  | cons p rest ih =>
    obtain ⟨k1, w⟩ := p
    simp only [keysOf, List.map_cons, List.mem_cons, not_or] at h
    have h1 : ¬ k1 = k := fun e => h.1 e.symm
    simp only [setField, h1, if_false, List.cons_append]
    rw [ih h.2]

theorem getField_resolveTimestamps (ts : Nat) (d : Doc) (key : String) :
    getField (resolveTimestamps ts d) key =
      (getField d key).map fun v => if v = Value.serverTimestamp then Value.timestamp ts else v := by
  induction d with
  | nil => rfl
  | cons p rest ih =>
    obtain ⟨k1, w⟩ := p
    by_cases h1 : k1 = key
    · simp [resolveTimestamps, getField, h1]
    · simp only [resolveTimestamps, List.map_cons, getField, h1, if_false]
      exact ih

/-! ## The loop of `syncOfflineTransactionsToSolana` -/

theorem attempt_ok_ne_empty (env : Env) (i : Nat) (tx : OfflineTransaction) (sig : String)
    (h : attempt env i tx = .ok sig) : sig ≠ "" := by
  unfold attempt at h
  cases hc : createSolanaTransaction env i tx with
  | error m => rw [hc] at h; cases h
  | ok t =>
    rw [hc] at h
    simp only [sendSolanaTransaction, Except.ok.injEq] at h
    intro he
    have hl : sig.length = 0 := by rw [he]; rfl
    rw [← h, String.length_append] at hl
    have : "mock_signature_".length = 15 := by decide
    omega

theorem successEntries_length_add (env : Env) (i : Nat) (txs : List OfflineTransaction) :
    (successEntries env i txs).length + (failureEntries env i txs).length = txs.length := by
  induction txs generalizing i with
  | nil => rfl
  | cons tx rest ih =>
    cases h : attempt env i tx with
    | ok sig => simp only [successEntries, failureEntries, h, List.length_cons]; have := ih (i + 1); omega
    | error m => simp only [successEntries, failureEntries, h, List.length_cons]; have := ih (i + 1); omega

theorem keysOf_successEntries_subset (env : Env) (i : Nat) (txs : List OfflineTransaction)
    (id : String) (h : id ∈ keysOf (successEntries env i txs)) : id ∈ ids txs := by
  induction txs generalizing i with
  | nil => simp [successEntries, keysOf] at h
  | cons tx rest ih =>
    cases ha : attempt env i tx with
    | ok sig =>
      simp only [successEntries, ha, keysOf, List.map_cons, List.mem_cons] at h
      rcases h with h | h
      · simp [ids, h]
      · have := ih (i + 1) h
        simp only [ids, List.map_cons, List.mem_cons]
        exact Or.inr this
    | error m =>
      simp only [successEntries, ha] at h
      have := ih (i + 1) h
      simp only [ids, List.map_cons, List.mem_cons]
      exact Or.inr this

theorem getField_successEntries_ok (env : Env) (i j : Nat) (txs : List OfflineTransaction)
    (tx : OfflineTransaction) (sig : String) (hnodup : (ids txs).Nodup)
    (hj : txs[j]? = some tx) (hok : attempt env (i + j) tx = .ok sig) :
    getField (successEntries env i txs) tx.id = some sig := by
  induction txs generalizing i j with
  | nil => simp at hj
  | cons t rest ih =>
    simp only [ids, List.map_cons, List.nodup_cons] at hnodup
    cases j with
    | zero =>
      simp only [List.getElem?_cons_zero, Option.some.injEq] at hj
      subst hj
      simp only [Nat.add_zero] at hok
      simp [successEntries, hok, getField]
    | succ j =>
      simp only [List.getElem?_cons_succ] at hj
      have hmem : tx.id ∈ ids rest := by
        simp only [ids, List.mem_map]
        exact ⟨tx, List.getElem?_mem hj, rfl⟩
      have hne : ¬ t.id = tx.id := fun e => hnodup.1 (e ▸ hmem)
      have hok1 : attempt env (i + 1 + j) tx = .ok sig := by
        rw [show i + 1 + j = i + (j + 1) by omega]; exact hok
      have := ih (i + 1) j hnodup.2 hj hok1
      cases ha : attempt env i t with
      | ok s => simp [successEntries, ha, getField, hne, this]
      | error m => simp [successEntries, ha, this]

theorem getField_successEntries_error (env : Env) (i j : Nat) (txs : List OfflineTransaction)
    (tx : OfflineTransaction) (m : String) (hnodup : (ids txs).Nodup)
    (hj : txs[j]? = some tx) (herr : attempt env (i + j) tx = .error m) :
    getField (successEntries env i txs) tx.id = none := by
  induction txs generalizing i j with
  | nil => simp at hj
  | cons t rest ih =>
    simp only [ids, List.map_cons, List.nodup_cons] at hnodup
    cases j with
    | zero =>
      simp only [List.getElem?_cons_zero, Option.some.injEq] at hj
      subst hj
      simp only [Nat.add_zero] at herr
      simp only [successEntries, herr]
      apply getField_eq_none_of_not_mem
      intro hmem
      exact hnodup.1 (keysOf_successEntries_subset env (i + 1) rest _ hmem)
    | succ j =>
      simp only [List.getElem?_cons_succ] at hj
      have hmem : tx.id ∈ ids rest := by
        simp only [ids, List.mem_map]
        exact ⟨tx, List.getElem?_mem hj, rfl⟩
      have hne : ¬ t.id = tx.id := fun e => hnodup.1 (e ▸ hmem)
      have herr1 : attempt env (i + 1 + j) tx = .error m := by
        rw [show i + 1 + j = i + (j + 1) by omega]; exact herr
      have := ih (i + 1) j hnodup.2 hj herr1
      cases ha : attempt env i t with
      | ok s => simp [successEntries, ha, getField, hne, this]
      | error m => simp [successEntries, ha, this]

theorem getField_filter_ne {β : Type} (obj : List (String × β)) (k0 key : String) :
    getField (obj.filter fun p => !decide (p.1 = k0)) key =
      if key = k0 then none else getField obj key := by
  induction obj with
  | nil => simp [getField]
  | cons p rest ih =>
    obtain ⟨k1, w⟩ := p
    by_cases h1 : k1 = k0
    · subst h1
      by_cases h2 : key = k1
      · subst h2
        simpa [List.filter_cons] using ih
      · have h3 : ¬ k1 = key := fun e => h2 e.symm
        simp [List.filter_cons, ih, h2, getField, h3]
    · by_cases h2 : k1 = key
      · subst h2
        simp [List.filter_cons, h1, getField]
      · simp [List.filter_cons, h1, getField, h2, ih]

theorem getField_storedEntries (env : Env) (i : Nat) (txs : List OfflineTransaction)
    (key : String) :
    getField (storedEntries env i txs) key =
      if key = "__proto__" then none else getField (successEntries env i txs) key := by
  unfold storedEntries
  simp only [ne_eq, decide_not]
  exact getField_filter_ne _ _ _

theorem keysOf_storedEntries_subset (env : Env) (i : Nat) (txs : List OfflineTransaction)
    (id : String) (h : id ∈ keysOf (storedEntries env i txs)) : id ∈ ids txs := by
  apply keysOf_successEntries_subset env i txs id
  simp only [keysOf, storedEntries, List.mem_map] at h ⊢
  obtain ⟨p, hp, rfl⟩ := h
  exact ⟨p, (List.mem_filter.1 hp).1, rfl⟩

theorem storedEntries_eq_of_not_mem (env : Env) (i : Nat) (txs : List OfflineTransaction)
    (h : "__proto__" ∉ ids txs) : storedEntries env i txs = successEntries env i txs := by
  unfold storedEntries
  apply List.filter_eq_self.2
  intro p hp
  have hk : p.1 ∈ ids txs :=
    keysOf_successEntries_subset env i txs p.1 (List.mem_map_of_mem Prod.fst hp)
  have hne : p.1 ≠ "__proto__" := fun e => h (e ▸ hk)
  simpa using hne

theorem syncLoop_results (env : Env) (i : Nat) (txs : List OfflineTransaction)
    (r : SyncResults) (log : List Event) (hnodup : (ids txs).Nodup)
    (hfresh : ∀ id ∈ ids txs, id ∉ keysOf r.signatures) :
    (syncLoop env i txs (r, log)).1 =
      { success := r.success
        signatures := r.signatures ++ storedEntries env i txs
        errors := r.errors ++ failureEntries env i txs
        processed := r.processed + (successEntries env i txs).length } := by
  induction txs generalizing i r log with
  | nil => simp [syncLoop, successEntries, failureEntries, storedEntries]
  | cons tx rest ih =>
    simp only [ids, List.map_cons, List.nodup_cons] at hnodup
    have hfresh0 : tx.id ∉ keysOf r.signatures := hfresh tx.id (by simp [ids])
    have hfresh1 : ∀ id ∈ ids rest, id ∉ keysOf r.signatures := fun id hid =>
      hfresh id (by simp only [ids, List.map_cons, List.mem_cons]; exact Or.inr hid)
    cases hc : createSolanaTransaction env i tx with
    | error m =>
      have ha : attempt env i tx = .error m := by simp [attempt, hc]
      simp only [syncLoop, hc, storedEntries, successEntries, failureEntries, ha]
      rw [ih (i + 1) _ _ hnodup.2]
      · simp [storedEntries]
      · exact hfresh1
    | ok t =>
      have ha : attempt env i tx = .ok ("mock_signature_" ++ toString (env.dateNow i)) := by
        simp [attempt, hc, sendSolanaTransaction]
      simp only [syncLoop, hc, sendSolanaTransaction, storedEntries, successEntries,
        failureEntries, ha]
      by_cases hp : tx.id = "__proto__"
      · rw [ih (i + 1) _ _ hnodup.2 (by simpa [writeProperty, hp] using hfresh1)]
        simp only [writeProperty, hp, if_true, storedEntries, List.filter_cons,
          List.length_cons]
        simp
        omega
      · rw [ih (i + 1) _ _ hnodup.2]
        · simp only [writeProperty, hp, if_false, setField_of_not_mem _ _ _ hfresh0,
            storedEntries, List.filter_cons, List.length_cons]
          simp [hp]
          omega
        · intro id hid
          simp only [writeProperty, hp, if_false, setField_of_not_mem _ _ _ hfresh0, keysOf,
            List.map_append, List.map_cons, List.map_nil, List.mem_append,
            List.mem_singleton, not_or]
          refine ⟨hfresh1 id hid, ?_⟩
          intro e
          exact hnodup.1 (e ▸ hid)

theorem syncLoop_log (env : Env) (i : Nat) (txs : List OfflineTransaction)
    (r : SyncResults) (log : List Event) :
    (syncLoop env i txs (r, log)).2 = log ++ loopEvents env i txs := by
  induction txs generalizing i r log with
  | nil => simp [syncLoop, loopEvents]
  | cons tx rest ih =>
    cases hc : createSolanaTransaction env i tx with
    | error m => simp [syncLoop, hc, loopEvents, ih]
    | ok t => simp [syncLoop, hc, loopEvents, ih, sendSolanaTransaction]

/-! ## The write batch of `updateTransactionResults` -/

theorem applyOps_append (ts : Nat) (s : Store) (a b : List WriteOp) :
    applyOps ts s (a ++ b) = (applyOps ts s a).bind fun s1 => applyOps ts s1 b := by
  induction a generalizing s with
  | nil => rfl
  | cons op rest ih =>
    simp only [List.cons_append, applyOps]
    cases applyOp ts s op with
    | none => rfl
    | some s1 => exact ih s1

theorem readProperty_inherited {β : Type} (obj : List (String × β)) (key name : String)
    (h : readProperty obj key = .inherited name) : name = key := by
  unfold readProperty at h
  cases hg : getField obj key with
  | some v => rw [hg] at h; cases h
  | none =>
    rw [hg] at h
    by_cases hk : key ∈ objectPrototypeKeys
    · simp only [hk, if_true, Property.inherited.injEq] at h
      exact h.symm
    · simp only [hk, if_false] at h
      cases h

theorem isReservedId_proto : isReservedId "__proto__" = true := by decide

theorem applyOps_update (ts : Nat) (s s1 : Store) (id : String) (data : Doc)
    (h : applyOps ts s [.update .offline_transactions id data] = some s1) :
    isReservedId id = false ∧ ∃ d, s.offline_transactions id = some d ∧
      s1 = s.write .offline_transactions id (some (mergeFields d (resolveTimestamps ts data))) := by
  simp only [applyOps, applyOp, Store.read] at h
  by_cases hres : isReservedId id = true
  · simp [hres] at h
  · simp only [hres, Bool.false_eq_true, if_false] at h
    cases hp : s.offline_transactions id with
    | none => rw [hp] at h; cases h
    | some d =>
      rw [hp] at h
      simp only [Option.some.injEq] at h
      exact ⟨by simpa using hres, d, rfl, h.symm⟩

theorem applyOps_move (ts : Nat) (s s1 : Store) (id : String) (data : Doc)
    (h : applyOps ts s [.set .synced_transactions id data, .delete .offline_transactions id]
      = some s1) :
    isReservedId id = false ∧
      s1 = (s.write .synced_transactions id (some (resolveTimestamps ts data))).write
        .offline_transactions id none := by
  simp only [applyOps, applyOp] at h
  by_cases hres : isReservedId id = true
  · simp [hres] at h
  · simp only [hres, Bool.false_eq_true, if_false, Option.some.injEq] at h
    exact ⟨by simpa using hres, h.symm⟩

theorem stageOne_some (env : Env) (ts : Nat) (r : SyncResults) (tx : OfflineTransaction)
    (s s1 : Store) (ops : List WriteOp) (hst : stageOne env r tx = .ok ops)
    (h : applyOps ts s ops = some s1) :
    recordsAfter env ts r tx (s.offline_transactions tx.id) (s.synced_transactions tx.id) =
        some (s1.offline_transactions tx.id, s1.synced_transactions tx.id) ∧
      ∀ id, id ≠ tx.id → s1.offline_transactions id = s.offline_transactions id ∧
        s1.synced_transactions id = s.synced_transactions id := by
  unfold stageOne at hst
  unfold recordsAfter
  by_cases hd : env.documentIdAccepted tx.id = true
  · rw [if_pos hd] at hst
    have hupdate : ops = [.update .offline_transactions tx.id failedUpdate] →
        (Option.map (fun d => (some (mergeFields d (resolveTimestamps ts failedUpdate)),
            s.synced_transactions tx.id)) (s.offline_transactions tx.id) =
          some (s1.offline_transactions tx.id, s1.synced_transactions tx.id) ∧
          isReservedId tx.id = false) ∧
        ∀ id, id ≠ tx.id → s1.offline_transactions id = s.offline_transactions id ∧
          s1.synced_transactions id = s.synced_transactions id := by
      intro hops
      subst hops
      obtain ⟨hres, d, hp, hs1⟩ := applyOps_update ts s s1 tx.id failedUpdate h
      subst hs1
      refine ⟨⟨by simp [hp, Store.write], hres⟩, ?_⟩
      intro id hid
      simp [Store.write, hid]
    cases hr : readProperty r.signatures tx.id with
    | undefined =>
      rw [hr] at hst
      simp only [Except.ok.injEq] at hst
      obtain ⟨⟨h1, hres⟩, h2⟩ := hupdate hst.symm
      exact ⟨by simp [hd, hres, h1], h2⟩
    | inherited name =>
      rw [hr] at hst
      have hname := readProperty_inherited _ _ _ hr
      by_cases hn : name = "__proto__"
      · simp only [hn, if_true, Except.ok.injEq] at hst
        subst hst
        obtain ⟨hres, _⟩ := applyOps_move ts s s1 tx.id _ h
        rw [← hname, hn, isReservedId_proto] at hres
        cases hres
      · simp only [hn, if_false] at hst
        cases hst
    | own sig =>
      rw [hr] at hst
      by_cases hs : sig ≠ ""
      · simp only [hs, ne_eq, not_false_eq_true, if_true, Except.ok.injEq] at hst
        subst hst
        obtain ⟨hres, hs1⟩ := applyOps_move ts s s1 tx.id _ h
        subst hs1
        refine ⟨by simp [hd, hres, hs, Store.write], ?_⟩
        intro id hid
        simp [Store.write, hid]
      · have hs0 : sig = "" := by simpa using hs
        simp only [hs0, ne_eq, not_true_eq_false, if_false, Except.ok.injEq] at hst
        obtain ⟨⟨h1, hres⟩, h2⟩ := hupdate hst.symm
        exact ⟨by simp [hd, hres, hs0, h1], h2⟩
  · rw [if_neg hd] at hst
    cases hst

theorem recordsAfter_congr (env : Env) (ts : Nat) (r : SyncResults) (tx : OfflineTransaction)
    (s s1 : Store) (h : s1.offline_transactions tx.id = s.offline_transactions tx.id)
    (h1 : s1.synced_transactions tx.id = s.synced_transactions tx.id) :
    recordsAfter env ts r tx (s1.offline_transactions tx.id) (s1.synced_transactions tx.id) =
      recordsAfter env ts r tx (s.offline_transactions tx.id) (s.synced_transactions tx.id) := by
  rw [h, h1]

/-- A committed batch leaves, for every transaction of the batch, the documents that its
own writes produce from the documents before, and leaves every other id untouched. -/
theorem stageLoop_some (env : Env) (ts : Nat) (r : SyncResults)
    (txs : List OfflineTransaction) (s s1 : Store) (hnodup : (ids txs).Nodup)
    (hdone : (stageLoop env r txs).2 = none)
    (h : applyOps ts s (stageLoop env r txs).1 = some s1) :
    (∀ tx ∈ txs,
        recordsAfter env ts r tx (s.offline_transactions tx.id)
            (s.synced_transactions tx.id) =
          some (s1.offline_transactions tx.id, s1.synced_transactions tx.id)) ∧
      ∀ id, id ∉ ids txs → s1.offline_transactions id = s.offline_transactions id ∧
        s1.synced_transactions id = s.synced_transactions id := by
  induction txs generalizing s with
  | nil =>
    simp only [stageLoop, applyOps, Option.some.injEq] at h
    subst h
    simp
  | cons t rest ih =>
    simp only [ids, List.map_cons, List.nodup_cons] at hnodup
    cases hst : stageOne env r t with
    | error m => simp [stageLoop, hst] at hdone
    | ok ops =>
      simp only [stageLoop, hst] at hdone h
      rw [applyOps_append] at h
      cases h0 : applyOps ts s ops with
      | none => rw [h0] at h; cases h
      | some s0 =>
        rw [h0] at h
        simp only [Option.some_bind] at h
        obtain ⟨hrec0, hframe0⟩ := stageOne_some env ts r t s s0 ops hst h0
        obtain ⟨hrec, hframe⟩ := ih s0 hnodup.2 hdone h
        constructor
        · intro tx htx
          by_cases he : tx.id = t.id
          · have hnot : tx.id ∉ ids rest := by rw [he]; exact hnodup.1
            have htx0 : tx = t := by
              rcases List.mem_cons.1 htx with h1 | h1
              · exact h1
              · exact absurd (List.mem_map_of_mem OfflineTransaction.id h1) hnot
            subst htx0
            rw [hrec0, (hframe tx.id hnot).1, (hframe tx.id hnot).2]
          · have hin : tx ∈ rest := by
              rcases List.mem_cons.1 htx with h1 | h1
              · exact absurd (congrArg OfflineTransaction.id h1) he
              · exact h1
            rw [← hrec tx hin]
            exact (recordsAfter_congr env ts r tx s s0 (hframe0 tx.id he).1
              (hframe0 tx.id he).2).symm
        · intro id hid
          simp only [ids, List.map_cons, List.mem_cons, not_or] at hid
          rw [(hframe id hid.2).1, (hframe id hid.2).2]
          exact hframe0 id hid.1

/-- What the committed writes leave for a transaction of the batch that succeeded: its
signature is in `results.signatures`, its confirmed record is written and its pending
record is gone. -/
theorem recordsAfter_final_ok (env : Env) (ts : Nat) (txs : List OfflineTransaction)
    (i : Nat) (tx : OfflineTransaction) (sig : String) (pending confirmed : Option Doc)
    (p : Option Doc × Option Doc) (hnodup : (ids txs).Nodup) (hi : txs[i]? = some tx)
    (hok : attempt env i tx = .ok sig)
    (h : recordsAfter env ts (finalResults env txs) tx pending confirmed = some p) :
    getField (finalResults env txs).signatures tx.id = some sig ∧
      p = (none, some (resolveTimestamps ts (syncedRecord tx sig))) := by
  unfold recordsAfter at h
  by_cases hc : env.documentIdAccepted tx.id = true ∧ isReservedId tx.id = false
  · rw [if_pos hc] at h
    have hne : tx.id ≠ "__proto__" := by
      intro e
      have := hc.2
      rw [e, isReservedId_proto] at this
      cases this
    have hsig : getField (finalResults env txs).signatures tx.id = some sig := by
      simp only [finalResults, getField_storedEntries, hne, if_false]
      exact getField_successEntries_ok env 0 i txs tx sig hnodup hi
        (by rw [Nat.zero_add]; exact hok)
    have hs := attempt_ok_ne_empty env i tx sig hok
    simp only [readProperty, hsig, hs, ne_eq, not_false_eq_true, if_true,
      Option.some.injEq] at h
    exact ⟨hsig, h.symm⟩
  · rw [if_neg hc] at h
    cases h

/-- What the committed writes leave for a transaction of the batch that failed: its
pending record, updated, and its confirmed record as it was. -/
theorem recordsAfter_final_error (env : Env) (ts : Nat) (txs : List OfflineTransaction)
    (i : Nat) (tx : OfflineTransaction) (m : String) (pending confirmed : Option Doc)
    (p : Option Doc × Option Doc) (hnodup : (ids txs).Nodup) (hi : txs[i]? = some tx)
    (herr : attempt env i tx = .error m)
    (h : recordsAfter env ts (finalResults env txs) tx pending confirmed = some p) :
    ∃ d, pending = some d ∧
      p = (some (mergeFields d (resolveTimestamps ts failedUpdate)), confirmed) := by
  unfold recordsAfter at h
  by_cases hc : env.documentIdAccepted tx.id = true ∧ isReservedId tx.id = false
  · rw [if_pos hc] at h
    have hsig : getField (finalResults env txs).signatures tx.id = none := by
      simp only [finalResults, getField_storedEntries]
      split
      · rfl
      · exact getField_successEntries_error env 0 i txs tx m hnodup hi
          (by rw [Nat.zero_add]; exact herr)
    simp only [readProperty, hsig] at h
    by_cases hk : tx.id ∈ objectPrototypeKeys
    · simp [hk] at h
    · simp only [hk, if_false] at h
      cases hp : pending with
      | none => rw [hp] at h; cases h
      | some d =>
        rw [hp] at h
        simp only [Option.map_some', Option.some.injEq] at h
        exact ⟨d, rfl, h.symm⟩
  · rw [if_neg hc] at h
    cases h

/-! ## Documents written by the batch -/

theorem syncedRecord_signature (ts : Nat) (tx : OfflineTransaction) (sig : String) :
    getField (resolveTimestamps ts (syncedRecord tx sig)) "solanaSignature" =
      some (Value.str sig) := by
  simp [getField_resolveTimestamps, syncedRecord, syncedRecordWith, OfflineTransaction.toDoc,
    setField, getField]

theorem syncedRecord_status (ts : Nat) (tx : OfflineTransaction) (sig : String) :
    getField (resolveTimestamps ts (syncedRecord tx sig)) "status" =
      some (Value.str "confirmed") := by
  simp [getField_resolveTimestamps, syncedRecord, syncedRecordWith, OfflineTransaction.toDoc,
    setField, getField]

theorem syncedRecord_fields (ts : Nat) (tx : OfflineTransaction) (sig : String)
    (k : String) (v : Value) (h : (k, v) ∈ tx.toDoc) :
    getField (resolveTimestamps ts (syncedRecord tx sig)) k = some v := by
  simp only [OfflineTransaction.toDoc, List.mem_cons, Prod.mk.injEq, List.mem_singleton,
    List.not_mem_nil, or_false] at h
  rcases h with h | h | h | h | h <;> obtain ⟨hk, hv⟩ := h <;> subst hk <;> subst hv <;>
    simp [getField_resolveTimestamps, syncedRecord, syncedRecordWith, OfflineTransaction.toDoc,
    setField, getField]

theorem failedUpdate_status (ts : Nat) (d : Doc) :
    getField (mergeFields d (resolveTimestamps ts failedUpdate)) "syncStatus" =
      some (Value.str "failed") := by
  simp only [failedUpdate, resolveTimestamps, List.map_cons, List.map_nil, mergeFields]
  rw [getField_setField_ne _ _ _ _ (by decide), getField_setField_ne _ _ _ _ (by decide),
    getField_setField_same]
  simp

theorem failedUpdate_message (ts : Nat) (d : Doc) :
    getField (mergeFields d (resolveTimestamps ts failedUpdate)) "errorMessage" =
      some (Value.str "Failed to sync to Solana") := by
  simp only [failedUpdate, resolveTimestamps, List.map_cons, List.map_nil, mergeFields]
  rw [getField_setField_ne _ _ _ _ (by decide), getField_setField_same]
  simp

/-! ## Unfolding the entry point -/

theorem syncLoop_init (env : Env) (txs : List OfflineTransaction) (hnodup : (ids txs).Nodup) :
    syncLoop env 0 txs
        ({ success := true, signatures := [], errors := [], processed := 0 }, []) =
      (finalResults env txs, loopEvents env 0 txs) := by
  have h1 := syncLoop_results env 0 txs
    { success := true, signatures := [], errors := [], processed := 0 } [] hnodup
    (by intro id _; simp [keysOf])
  have h2 := syncLoop_log env 0 txs
    { success := true, signatures := [], errors := [], processed := 0 } []
  apply Prod.ext
  · rw [h1]; simp [finalResults]
  · rw [h2]; simp

theorem sync_array (env : Env) (store : Store) (txs : List OfflineTransaction)
    (hnodup : (ids txs).Nodup) :
    syncOfflineTransactionsToSolana env store ⟨.array txs⟩ =
      { response := .results (finalResults env txs)
        store := (updateTransactionResults env store txs (finalResults env txs)).1
        log := loopEvents env 0 txs ++
          (updateTransactionResults env store txs (finalResults env txs)).2 } := by
  simp only [syncOfflineTransactionsToSolana, TransactionsField.truthy,
    TransactionsField.isArray, TransactionsField.elements, Bool.not_true, Bool.or_self,
    Bool.false_eq_true, if_false]
  rw [syncLoop_init env txs hnodup]

theorem commit_not_mem_loopEvents (env : Env) (i : Nat) (txs : List OfflineTransaction)
    (b : Bool) : Event.commit b ∉ loopEvents env i txs := by
  induction txs generalizing i with
  | nil => simp [loopEvents]
  | cons tx rest ih =>
    cases hc : createSolanaTransaction env i tx with
    | error m => simp [loopEvents, hc, ih]
    | ok t => simp [loopEvents, hc, ih]

theorem commit_not_mem_stage (ops : List WriteOp) (b : Bool) :
    Event.commit b ∉ ops.map Event.stage := by
  simp

/-- The two ways `updateTransactionResults` ends: the staged writes were all committed, or
the store is as it was and no accepted commit is logged. -/
theorem update_cases (env : Env) (store : Store) (txs : List OfflineTransaction)
    (r : SyncResults) :
    (∃ s1, (stageLoop env r txs).2 = none ∧
        applyOps env.serverTime store (stageLoop env r txs).1 = some s1 ∧
        (updateTransactionResults env store txs r).1 = s1 ∧
        Event.commit false ∉ (updateTransactionResults env store txs r).2) ∨
      ((updateTransactionResults env store txs r).1 = store ∧
        Event.commit true ∉ (updateTransactionResults env store txs r).2) := by
  cases hd : (stageLoop env r txs).2 with
  | some m =>
    have hu : updateTransactionResults env store txs r =
        (store, (stageLoop env r txs).1.map Event.stage) := by
      simp [updateTransactionResults, hd]
    rw [hu]
    exact Or.inr ⟨rfl, by simp⟩
  | none =>
    cases hc : commit env store (stageLoop env r txs).1 with
    | none =>
      have hu : updateTransactionResults env store txs r =
          (store, (stageLoop env r txs).1.map Event.stage ++ [Event.commit false]) := by
        simp [updateTransactionResults, hd, hc]
      rw [hu]
      exact Or.inr ⟨rfl, by simp⟩
    | some s1 =>
      have hu : updateTransactionResults env store txs r =
          (s1, (stageLoop env r txs).1.map Event.stage ++ [Event.commit true]) := by
        simp [updateTransactionResults, hd, hc]
      rw [hu]
      refine Or.inl ⟨s1, rfl, ?_, rfl, by simp⟩
      unfold commit at hc
      by_cases ha : env.commitAvailable = true
      · rw [if_pos ha] at hc; exact hc
      · rw [if_neg ha] at hc; cases hc

theorem sync_cases (env : Env) (store : Store) (txs : List OfflineTransaction)
    (hnodup : (ids txs).Nodup) :
    (∃ s1, (stageLoop env (finalResults env txs) txs).2 = none ∧
        applyOps env.serverTime store (stageLoop env (finalResults env txs) txs).1 = some s1 ∧
        (syncOfflineTransactionsToSolana env store ⟨.array txs⟩).store = s1 ∧
        Event.commit false ∉ (syncOfflineTransactionsToSolana env store ⟨.array txs⟩).log) ∨
      ((syncOfflineTransactionsToSolana env store ⟨.array txs⟩).store = store ∧
        Event.commit true ∉ (syncOfflineTransactionsToSolana env store ⟨.array txs⟩).log) := by
  rw [sync_array env store txs hnodup]
  simp only [List.mem_append, commit_not_mem_loopEvents, false_or]
  exact update_cases env store txs (finalResults env txs)

/-! ## Claims about `syncOfflineTransactionsToSolana` -/

theorem attempt_ok_of_build_send (env : Env) (i : Nat) (tx : OfflineTransaction)
    (solanaTx : Transaction) (sig : String)
    (hbuild : createSolanaTransaction env i tx = .ok solanaTx)
    (hsend : sendSolanaTransaction env i solanaTx = .ok sig) :
    attempt env i tx = .ok sig := by
  simp [attempt, hbuild, hsend]

theorem attempt_error_of_build_or_send (env : Env) (i : Nat) (tx : OfflineTransaction)
    (m : String)
    (hfail : createSolanaTransaction env i tx = .error m ∨
      ∃ solanaTx, createSolanaTransaction env i tx = .ok solanaTx ∧
        sendSolanaTransaction env i solanaTx = .error m) :
    attempt env i tx = .error m := by
  rcases hfail with h | ⟨t, h, h1⟩
  · simp [attempt, h]
  · simp [attempt, h, h1]

theorem commit_some_of_log (env : Env) (store : Store) (txs : List OfflineTransaction)
    (hnodup : (ids txs).Nodup)
    (hcommit : Event.commit true ∈
      (syncOfflineTransactionsToSolana env store ⟨.array txs⟩).log) :
    ∃ s1, (stageLoop env (finalResults env txs) txs).2 = none ∧
      applyOps env.serverTime store (stageLoop env (finalResults env txs) txs).1 = some s1 ∧
      (syncOfflineTransactionsToSolana env store ⟨.array txs⟩).store = s1 := by
  rcases sync_cases env store txs hnodup with ⟨s1, hd, ha, hs, _⟩ | ⟨_, hno⟩
  · exact ⟨s1, hd, ha, hs⟩
  · exact absurd hcommit hno

theorem syncedRecord_named (ts : Nat) (tx : OfflineTransaction) (sig : String) :
    getField (resolveTimestamps ts (syncedRecord tx sig)) "id" = some (Value.str tx.id) ∧
      getField (resolveTimestamps ts (syncedRecord tx sig)) "customerId" =
        some (Value.str tx.customerId) ∧
      getField (resolveTimestamps ts (syncedRecord tx sig)) "vendorId" =
        some (Value.str tx.vendorId) ∧
      getField (resolveTimestamps ts (syncedRecord tx sig)) "totalAmount" =
        some (Value.num tx.totalAmount) ∧
      getField (resolveTimestamps ts (syncedRecord tx sig)) "createdAt" =
        some (Value.timestamp tx.createdAt) :=
  ⟨syncedRecord_fields ts tx sig _ _ (by simp [OfflineTransaction.toDoc]),
    syncedRecord_fields ts tx sig _ _ (by simp [OfflineTransaction.toDoc]),
    syncedRecord_fields ts tx sig _ _ (by simp [OfflineTransaction.toDoc]),
    syncedRecord_fields ts tx sig _ _ (by simp [OfflineTransaction.toDoc]),
    syncedRecord_fields ts tx sig _ _ (by simp [OfflineTransaction.toDoc])⟩

/-- C1. For a batch with pairwise distinct ids and a transaction of it (at position i)
whose build and submit both succeed: when the batch commit succeeded, synced_transactions
holds under its id a record carrying all its fields (id, customerId, vendorId, totalAmount
and createdAt, each with the value the transaction has), with solanaSignature equal to the
signature reported for its id in the returned signatures map and status confirmed, and
offline_transactions holds no record under its id. The pending records the claim assumes
are what lets the commit succeed when other transactions fail; this conclusion holds for
every store in which the commit succeeded. -/
theorem sync_success_is_confirmed (env : Env) (store : Store)
    (txs : List OfflineTransaction) (i : Nat) (tx : OfflineTransaction)
    (solanaTx : Transaction) (sig : String)
    (hnodup : (ids txs).Nodup)
    (hi : txs[i]? = some tx)
    (hbuild : createSolanaTransaction env i tx = .ok solanaTx)
    (hsend : sendSolanaTransaction env i solanaTx = .ok sig)
    (hcommit : Event.commit true ∈
      (syncOfflineTransactionsToSolana env store ⟨.array txs⟩).log) :
    ∃ r d,
      (syncOfflineTransactionsToSolana env store ⟨.array txs⟩).response = .results r ∧
      getField r.signatures tx.id = some sig ∧
      (syncOfflineTransactionsToSolana env store ⟨.array txs⟩).store.synced_transactions tx.id
        = some d ∧
      getField d "id" = some (Value.str tx.id) ∧
      getField d "customerId" = some (Value.str tx.customerId) ∧
      getField d "vendorId" = some (Value.str tx.vendorId) ∧
      getField d "totalAmount" = some (Value.num tx.totalAmount) ∧
      getField d "createdAt" = some (Value.timestamp tx.createdAt) ∧
      getField d "solanaSignature" = some (Value.str sig) ∧
      getField d "status" = some (Value.str "confirmed") ∧
      (syncOfflineTransactionsToSolana env store ⟨.array txs⟩).store.offline_transactions tx.id
        = none := by
  have hok := attempt_ok_of_build_send env i tx solanaTx sig hbuild hsend
  obtain ⟨s1, hdone, happly, hstore⟩ := commit_some_of_log env store txs hnodup hcommit
  have hrec := (stageLoop_some env env.serverTime _ txs store s1 hnodup hdone happly).1 tx
    (List.getElem?_mem hi)
  obtain ⟨hsig, hp⟩ := recordsAfter_final_ok env env.serverTime txs i tx sig _ _ _ hnodup hi
    hok hrec
  simp only [Prod.mk.injEq] at hp
  obtain ⟨h1, h2, h3, h4, h5⟩ := syncedRecord_named env.serverTime tx sig
  refine ⟨finalResults env txs, resolveTimestamps env.serverTime (syncedRecord tx sig),
    ?_, hsig, ?_, h1, h2, h3, h4, h5, ?_, ?_, ?_⟩
  · rw [sync_array env store txs hnodup]
  · rw [hstore]; exact hp.2
  · exact syncedRecord_signature env.serverTime tx sig
  · exact syncedRecord_status env.serverTime tx sig
  · rw [hstore]; exact hp.1

/-- C2. For a batch with pairwise distinct ids, each with a pending record and no
confirmed record, and a transaction of it (at position i) whose build or submit fails:
when the batch commit succeeded, the offline_transactions record under its id has
syncStatus failed and a non-empty errorMessage, and synced_transactions holds no record
under its id. -/
theorem sync_failure_is_marked (env : Env) (store : Store)
    (txs : List OfflineTransaction) (i : Nat) (tx : OfflineTransaction) (m : String)
    (hnodup : (ids txs).Nodup)
    (hpending : ∀ t ∈ txs, (∃ d, store.offline_transactions t.id = some d) ∧
      store.synced_transactions t.id = none)
    (hi : txs[i]? = some tx)
    (hfail : createSolanaTransaction env i tx = .error m ∨
      ∃ solanaTx, createSolanaTransaction env i tx = .ok solanaTx ∧
        sendSolanaTransaction env i solanaTx = .error m)
    (hcommit : Event.commit true ∈
      (syncOfflineTransactionsToSolana env store ⟨.array txs⟩).log) :
    ∃ d message,
      (syncOfflineTransactionsToSolana env store ⟨.array txs⟩).store.offline_transactions tx.id
        = some d ∧
      getField d "syncStatus" = some (Value.str "failed") ∧
      getField d "errorMessage" = some (Value.str message) ∧ message ≠ "" ∧
      (syncOfflineTransactionsToSolana env store ⟨.array txs⟩).store.synced_transactions tx.id
        = none := by
  have herr := attempt_error_of_build_or_send env i tx m hfail
  obtain ⟨s1, hdone, happly, hstore⟩ := commit_some_of_log env store txs hnodup hcommit
  have hmem := List.getElem?_mem hi
  have hrec := (stageLoop_some env env.serverTime _ txs store s1 hnodup hdone happly).1 tx
    hmem
  obtain ⟨_, hnone⟩ := hpending tx hmem
  obtain ⟨d0, _, hp⟩ := recordsAfter_final_error env env.serverTime txs i tx m _ _ _ hnodup
    hi herr hrec
  simp only [Prod.mk.injEq] at hp
  refine ⟨mergeFields d0 (resolveTimestamps env.serverTime failedUpdate),
    "Failed to sync to Solana", ?_, ?_, ?_, by decide, ?_⟩
  · rw [hstore]; exact hp.1
  · exact failedUpdate_status env.serverTime d0
  · exact failedUpdate_message env.serverTime d0
  · rw [hstore, hp.2]; exact hnone

theorem failureEntries_eq (env : Env) (i : Nat) (txs : List OfflineTransaction) :
    failureEntries env i txs = (txs.enumFrom i).filterMap (failureOf env) := by
  induction txs generalizing i with
  | nil => rfl
  | cons tx rest ih =>
    cases ha : attempt env i tx with
    | ok sig => simp [failureEntries, List.enumFrom, List.filterMap_cons, failureOf, ha, ih]
    | error m => simp [failureEntries, List.enumFrom, List.filterMap_cons, failureOf, ha, ih]

theorem successEntries_eq (env : Env) (i : Nat) (txs : List OfflineTransaction) :
    successEntries env i txs = (txs.enumFrom i).filterMap (successOf env) := by
  induction txs generalizing i with
  | nil => rfl
  | cons tx rest ih =>
    cases ha : attempt env i tx with
    | ok sig => simp [successEntries, List.enumFrom, List.filterMap_cons, successOf, ha, ih]
    | error m => simp [successEntries, List.enumFrom, List.filterMap_cons, successOf, ha, ih]

theorem fails_length (env : Env) (i : Nat) (txs : List OfflineTransaction) :
    ((txs.enumFrom i).filter (fails env)).length = (failureEntries env i txs).length := by
  induction txs generalizing i with
  | nil => rfl
  | cons tx rest ih =>
    cases ha : attempt env i tx with
    | ok sig => simp [failureEntries, List.enumFrom, List.filter_cons, fails, ha, ih]
    | error m => simp [failureEntries, List.enumFrom, List.filter_cons, fails, ha, ih]

theorem mem_keysOf_successEntries (env : Env) (i : Nat) (txs : List OfflineTransaction)
    (id : String) (h : id ∈ keysOf (successEntries env i txs)) :
    ∃ j tx sig, txs[j]? = some tx ∧ attempt env (i + j) tx = .ok sig ∧ tx.id = id := by
  induction txs generalizing i with
  | nil => simp [successEntries, keysOf] at h
  | cons t rest ih =>
    have hrest : id ∈ keysOf (successEntries env (i + 1) rest) →
        ∃ j tx sig, (t :: rest)[j]? = some tx ∧ attempt env (i + j) tx = .ok sig ∧
          tx.id = id := by
      intro h1
      obtain ⟨j, tx, sig, hj, ha, hid⟩ := ih (i + 1) h1
      exact ⟨j + 1, tx, sig, by simpa using hj,
        by rw [show i + (j + 1) = i + 1 + j by omega]; exact ha, hid⟩
    cases ha : attempt env i t with
    | ok sig =>
      simp only [successEntries, ha, keysOf, List.map_cons, List.mem_cons] at h
      rcases h with h | h
      · exact ⟨0, t, sig, by simp, by simpa using ha, h.symm⟩
      · exact hrest h
    | error m =>
      simp only [successEntries, ha] at h
      exact hrest h

theorem mem_failureEntries (env : Env) (i j : Nat) (txs : List OfflineTransaction)
    (tx : OfflineTransaction) (m : String) (hj : txs[j]? = some tx)
    (herr : attempt env (i + j) tx = .error m) :
    (⟨tx.id, m⟩ : ErrorEntry) ∈ failureEntries env i txs := by
  induction txs generalizing i j with
  | nil => simp at hj
  | cons t rest ih =>
    cases j with
    | zero =>
      simp only [List.getElem?_cons_zero, Option.some.injEq] at hj
      subst hj
      simp only [Nat.add_zero] at herr
      simp [failureEntries, herr]
    | succ j =>
      simp only [List.getElem?_cons_succ] at hj
      have := ih (i + 1) j hj (by rw [show i + 1 + j = i + (j + 1) by omega]; exact herr)
      cases ha : attempt env i t with
      | ok s => simp [failureEntries, ha, this]
      | error m1 => simp [failureEntries, ha, this]

/-- C4, as the code has it. A failure of one transaction never aborts the others: for a
batch of N transactions with pairwise distinct ids, none of them the id __proto__, of
which exactly K fail at build or submit, the call returns success true with processed =
N-K, a signatures map whose keys are exactly the ids of the N-K transactions that
succeeded, and an errors list with exactly K entries, one per failed transaction in input
order with its id and its error message; whether a transaction is reported as a success
depends only on its own build and submit. -/
theorem sync_isolates_failures (env : Env) (store : Store) (txs : List OfflineTransaction)
    (K : Nat) (hnodup : (ids txs).Nodup) (hproto : "__proto__" ∉ ids txs)
    (hK : ((txs.enum).filter (fails env)).length = K) :
    ∃ r,
      (syncOfflineTransactionsToSolana env store ⟨.array txs⟩).response = .results r ∧
      r.success = true ∧
      r.processed = txs.length - K ∧
      r.signatures = (txs.enum).filterMap (successOf env) ∧
      (keysOf r.signatures).length = txs.length - K ∧
      (∀ id, id ∈ keysOf r.signatures ↔
        ∃ i tx sig, txs[i]? = some tx ∧ attempt env i tx = .ok sig ∧ tx.id = id) ∧
      r.errors = (txs.enum).filterMap (failureOf env) ∧
      r.errors.length = K ∧
      ∀ i tx, txs[i]? = some tx →
        (∀ sig, attempt env i tx = .ok sig → getField r.signatures tx.id = some sig) ∧
        (∀ m, attempt env i tx = .error m →
          getField r.signatures tx.id = none ∧ (⟨tx.id, m⟩ : ErrorEntry) ∈ r.errors) := by
  have hlen := successEntries_length_add env 0 txs
  have hK1 : (failureEntries env 0 txs).length = K := by
    rw [← fails_length]; exact hK
  have hstored : (finalResults env txs).signatures = successEntries env 0 txs :=
    storedEntries_eq_of_not_mem env 0 txs hproto
  refine ⟨finalResults env txs, ?_, rfl, ?_, ?_, ?_, ?_, ?_, hK1, ?_⟩
  · rw [sync_array env store txs hnodup]
  · simp only [finalResults]; omega
  · rw [hstored]; exact successEntries_eq env 0 txs
  · rw [hstored]; simp only [keysOf, List.length_map]; omega
  · rw [hstored]
    intro id
    constructor
    · intro h
      obtain ⟨j, tx, sig, hj, ha, hid⟩ := mem_keysOf_successEntries env 0 txs id h
      exact ⟨j, tx, sig, hj, by rw [Nat.zero_add] at ha; exact ha, hid⟩
    · rintro ⟨i, tx, sig, hi, ha, hid⟩
      rw [← hid]
      exact mem_keysOf_of_getField _ _ sig
        (getField_successEntries_ok env 0 i txs tx sig hnodup hi (by rw [Nat.zero_add]; exact ha))
  · exact failureEntries_eq env 0 txs
  · rw [hstored]
    intro i tx hi
    constructor
    · intro sig ha
      exact getField_successEntries_ok env 0 i txs tx sig hnodup hi (by rw [Nat.zero_add]; exact ha)
    · intro m ha
      exact ⟨getField_successEntries_error env 0 i txs tx m hnodup hi
          (by rw [Nat.zero_add]; exact ha),
        mem_failureEntries env 0 i txs tx m hi (by rw [Nat.zero_add]; exact ha)⟩

theorem sync_array_loop (env : Env) (store : Store) (txs : List OfflineTransaction) :
    syncOfflineTransactionsToSolana env store ⟨.array txs⟩ =
      { response := .results (syncLoop env 0 txs
          ({ success := true, signatures := [], errors := [], processed := 0 }, [])).1
        store := (updateTransactionResults env store txs (syncLoop env 0 txs
          ({ success := true, signatures := [], errors := [], processed := 0 }, [])).1).1
        log := loopEvents env 0 txs ++ (updateTransactionResults env store txs (syncLoop env 0 txs
          ({ success := true, signatures := [], errors := [], processed := 0 }, [])).1).2 } := by
  simp only [syncOfflineTransactionsToSolana, TransactionsField.truthy,
    TransactionsField.isArray, TransactionsField.elements, Bool.not_true, Bool.or_self,
    Bool.false_eq_true, if_false]
  rw [← List.nil_append (loopEvents env 0 txs), ← syncLoop_log env 0 txs
    { success := true, signatures := [], errors := [], processed := 0 } []]

theorem syncLoop_success (env : Env) (i : Nat) (txs : List OfflineTransaction)
    (r : SyncResults) (log : List Event) :
    (syncLoop env i txs (r, log)).1.success = r.success := by
  induction txs generalizing i r log with
  | nil => rfl
  | cons tx rest ih =>
    cases hc : createSolanaTransaction env i tx with
    | error m => simp [syncLoop, hc, ih]
    | ok t => simp [syncLoop, hc, ih, sendSolanaTransaction]

theorem syncLoop_commitAvailable (env : Env) (b : Bool) (i : Nat)
    (txs : List OfflineTransaction) (acc : SyncResults × List Event) :
    syncLoop { env with commitAvailable := b } i txs acc = syncLoop env i txs acc := by
  induction txs generalizing i acc with
  | nil => rfl
  | cons tx rest ih =>
    obtain ⟨r, log⟩ := acc
    have hc : createSolanaTransaction { env with commitAvailable := b } i tx =
        createSolanaTransaction env i tx := rfl
    simp only [syncLoop, hc]
    cases createSolanaTransaction env i tx with
    | error m => exact ih _ _
    | ok t => exact ih _ _

/-- C3. The store predicate that every known transaction id is in exactly one of
offline_transactions and synced_transactions is preserved by the call: for every store
satisfying it, every batch with pairwise distinct ids that all have a pending record and
every environment (whatever the build and submit outcomes, and whether the commit is
accepted or rejected), the store after the call satisfies it again, and the records of
ids that are not in the batch are unchanged. -/
theorem sync_preserves_exactly_one (env : Env) (store : Store)
    (txs : List OfflineTransaction) (known : String → Prop)
    (hinv : exactlyOneOf known store)
    (hnodup : (ids txs).Nodup)
    (hpending : ∀ t ∈ txs, ∃ d, store.offline_transactions t.id = some d) :
    exactlyOneOf known (syncOfflineTransactionsToSolana env store ⟨.array txs⟩).store ∧
      ∀ id, id ∉ ids txs →
        (syncOfflineTransactionsToSolana env store ⟨.array txs⟩).store.offline_transactions id
          = store.offline_transactions id ∧
        (syncOfflineTransactionsToSolana env store ⟨.array txs⟩).store.synced_transactions id
          = store.synced_transactions id := by
  rcases sync_cases env store txs hnodup with ⟨s1, hdone, happly, hstore, _⟩ | ⟨hstore, _⟩
  · rw [hstore]
    obtain ⟨hrec, hframe⟩ := stageLoop_some env env.serverTime _ txs store s1 hnodup hdone
      happly
    refine ⟨?_, hframe⟩
    intro id hid
    have h0 := hinv id hid
    by_cases hmem : id ∈ ids txs
    · simp only [ids, List.mem_map] at hmem
      obtain ⟨tx, htx, rfl⟩ := hmem
      obtain ⟨d, hd⟩ := hpending tx htx
      obtain ⟨i, hi⟩ := List.mem_iff_getElem?.1 htx
      have hr := hrec tx htx
      have hsyn : store.synced_transactions tx.id = none := by
        unfold inExactlyOne at h0
        rw [hd] at h0
        cases hs : store.synced_transactions tx.id with
        | none => rfl
        | some d1 => rw [hs] at h0; exact absurd rfl h0
      unfold inExactlyOne
      cases ha : attempt env i tx with
      | ok sig =>
        obtain ⟨_, hp⟩ := recordsAfter_final_ok env env.serverTime txs i tx sig _ _ _ hnodup
          hi ha hr
        simp only [Prod.mk.injEq] at hp
        rw [hp.1, hp.2]
        simp
      | error m =>
        obtain ⟨d0, _, hp⟩ := recordsAfter_final_error env env.serverTime txs i tx m _ _ _
          hnodup hi ha hr
        simp only [Prod.mk.injEq] at hp
        rw [hp.1, hp.2, hsyn]
        simp
    · unfold inExactlyOne at h0 ⊢
      rw [(hframe id hmem).1, (hframe id hmem).2]
      exact h0
  · rw [hstore]
    exact ⟨hinv, fun _ _ => ⟨rfl, rfl⟩⟩

/-- C7, as the code has it. When the batch commit is rejected, the rejection is caught
inside updateTransactionResults: the store is left unchanged, and the call still returns
the results object with success true, the same response it returns when the commit is
accepted. -/
theorem sync_rejected_commit_keeps_store (env : Env) (store : Store)
    (txs : List OfflineTransaction)
    (hrejected : Event.commit false ∈
      (syncOfflineTransactionsToSolana env store ⟨.array txs⟩).log) :
    (syncOfflineTransactionsToSolana env store ⟨.array txs⟩).store = store ∧
      (∃ r, (syncOfflineTransactionsToSolana env store ⟨.array txs⟩).response = .results r ∧
        r.success = true) ∧
      (syncOfflineTransactionsToSolana env store ⟨.array txs⟩).response =
        (syncOfflineTransactionsToSolana { env with commitAvailable := true } store
          ⟨.array txs⟩).response := by
  rw [sync_array_loop env store txs] at hrejected ⊢
  simp only [List.mem_append, commit_not_mem_loopEvents, false_or] at hrejected
  refine ⟨?_, ⟨_, rfl, ?_⟩, ?_⟩
  · rcases update_cases env store txs (syncLoop env 0 txs
        ({ success := true, signatures := [], errors := [], processed := 0 }, [])).1 with
      ⟨s1, _, _, _, hno⟩ | ⟨hstore, _⟩
    · exact absurd hrejected hno
    · exact hstore
  · rw [syncLoop_success]
  · rw [sync_array_loop]
    simp only [syncLoop_commitAvailable]

/-- C8. For every request payload whose transactions field is missing, falsy or not an
array, syncOfflineTransactionsToSolana and processBatchTransactions each return the
response with success false and error Invalid transactions data, make no call to the
builder or the submitter, stage and commit nothing, and leave the store as it is. -/
theorem invalid_transactions_rejected (env : Env) (store : Store) (data : Payload)
    (hbad : data.transactions.truthy = false ∨ data.transactions.isArray = false) :
    (syncOfflineTransactionsToSolana env store data).response =
        .failure "Invalid transactions data" ∧
      (syncOfflineTransactionsToSolana env store data).log = [] ∧
      (syncOfflineTransactionsToSolana env store data).store = store ∧
      (processBatchTransactions env store data).response =
        .failure "Invalid transactions data" ∧
      (processBatchTransactions env store data).log = [] ∧
      (processBatchTransactions env store data).store = store := by
  have hcond : (!data.transactions.truthy || !data.transactions.isArray) = true := by
    rcases hbad with h | h <;> simp [h]
  simp only [syncOfflineTransactionsToSolana, processBatchTransactions, hcond, if_true]
  simp

/-! ## The loops of `processBatchTransactions` -/

theorem processGroup_spec (env : Env) (i : Nat) (g : List OfflineTransaction)
    (r : BatchResults) (log : List Event) :
    processGroup env i g (r, log) =
      ({ r with failed := r.failed + g.length }, log ++ buildEvents i g) := by
  induction g generalizing i r log with
  | nil => simp [processGroup, buildEvents]
  | cons tx rest ih =>
    cases hc : createSolanaTransaction env i tx with
    | error m =>
      simp only [processGroup, hc, ih, buildEvents, List.enumFrom, List.map_cons,
        List.length_cons, List.append_assoc, List.singleton_append, Prod.mk.injEq, and_true]
      congr 1
      omega
    | ok t =>
      simp only [processGroup, hc, Transaction.success, ih, buildEvents, List.enumFrom,
        List.map_cons, List.length_cons, List.append_assoc, List.singleton_append,
        Prod.mk.injEq, and_true]
      simp only [reduceCtorEq, if_false, ih, buildEvents, List.append_assoc,
        List.singleton_append, Prod.mk.injEq, and_true]
      congr 1
      omega

/-- Loop invariant rule for the group loop: a property kept by every iteration holds, for
some final counter past the end of the array, when the loop has ended. -/
theorem batchLoop_invariant (env : Env) (txs : List OfflineTransaction)
    (P : Nat → BatchState → Prop)
    (hstep : ∀ i st, i < txs.length → P i st →
      P (i + batchSize)
        { results := (processGroup env i ((txs.drop i).take batchSize) (st.results, st.log)).1
          log := (processGroup env i ((txs.drop i).take batchSize) (st.results, st.log)).2
          groups := st.groups ++ [(txs.drop i).take batchSize] })
    (n : Nat) : ∀ i st, txs.length - i = n → P i st →
      ∃ j, txs.length ≤ j ∧ P j (batchLoop env txs i st) := by
  induction n using Nat.strong_induction_on with
  | _ n ih =>
    intro i st hn hP
    rw [batchLoop]
    by_cases hlt : i < txs.length
    · simp only [hlt, if_true]
      exact ih (txs.length - (i + batchSize)) (by simp only [batchSize]; omega)
        (i + batchSize) _ rfl (hstep i st hlt hP)
    · simp only [hlt, if_false]
      exact ⟨i, by omega, hP⟩

theorem slices_flatten (txs : List OfflineTransaction) (m : Nat) :
    ((List.range m).map (slice txs)).flatten = txs.take (batchSize * m) := by
  induction m with
  | zero => simp
  | succ m ih =>
    rw [List.range_succ, List.map_append, List.flatten_append, ih]
    simp only [List.map_cons, List.map_nil, List.flatten_cons, List.flatten_nil,
      List.append_nil, slice]
    rw [show batchSize * (m + 1) = batchSize * m + batchSize by ring, List.take_add]

theorem buildEvents_append (i : Nat) (a b : List OfflineTransaction) :
    buildEvents i (a ++ b) = buildEvents i a ++ buildEvents (i + a.length) b := by
  simp [buildEvents, List.enumFrom_append]

theorem afterGroups_step (env : Env) (txs : List OfflineTransaction) (i : Nat)
    (st : BatchState) (hlt : i < txs.length) (h : afterGroups txs i st) :
    afterGroups txs (i + batchSize)
      { results := (processGroup env i ((txs.drop i).take batchSize) (st.results, st.log)).1
        log := (processGroup env i ((txs.drop i).take batchSize) (st.results, st.log)).2
        groups := st.groups ++ [(txs.drop i).take batchSize] } := by
  obtain ⟨m, hi, hg, _, hr, hl⟩ := h
  refine ⟨m + 1, by rw [hi]; ring, ?_, Or.inr (by simp only [Nat.add_sub_cancel]; omega), ?_, ?_⟩
  · simp only [hg, List.range_succ, List.map_append, List.map_cons, List.map_nil, slice, hi]
  · simp only [processGroup_spec, hr, List.length_take, List.length_drop, batchSize]
    congr 1
    omega
  · simp only [processGroup_spec, hl]
    rw [List.take_add, buildEvents_append]
    congr 2
    simp only [List.length_take, Nat.zero_add]
    omega

theorem batchLoop_afterGroups (env : Env) (txs : List OfflineTransaction) :
    ∃ j, txs.length ≤ j ∧ afterGroups txs j (batchLoop env txs 0 initialBatchState) := by
  apply batchLoop_invariant env txs (afterGroups txs) (afterGroups_step env txs)
    (txs.length - 0) 0 initialBatchState rfl
  exact ⟨0, rfl, rfl, Or.inl rfl, by simp [initialBatchState], by simp [initialBatchState, buildEvents]⟩

theorem processBatch_array (env : Env) (store : Store) (txs : List OfflineTransaction) :
    processBatchTransactions env store ⟨.array txs⟩ =
      { response := .results (batchLoop env txs 0 initialBatchState).results
        store := store
        log := (batchLoop env txs 0 initialBatchState).log } := by
  simp [processBatchTransactions, TransactionsField.truthy, TransactionsField.isArray,
    TransactionsField.elements]

/-- The report of `processBatchTransactions` for any array: nothing is counted as processed. -/
theorem processBatch_results (env : Env) (txs : List OfflineTransaction) :
    (batchLoop env txs 0 initialBatchState).results =
      { success := true, processed := 0, failed := txs.length, signatures := [] } := by
  obtain ⟨j, hj, m, _, _, _, hr, _⟩ := batchLoop_afterGroups env txs
  rw [hr, Nat.min_eq_right hj]

/-- C10. The group loop of processBatchTransactions splits every input array of length
N into the consecutive slices transactions.slice(5k, 5k+5): it ends after exactly
ceil(N/5) groups, every group has at most 5 elements and every group but the last exactly
5, the groups concatenated in order are the input, the builder is called exactly once for
every transaction, in input order, and processed + failed = N in the returned report. -/
theorem batch_groups_partition (env : Env) (store : Store) (txs : List OfflineTransaction) :
    (batchLoop env txs 0 initialBatchState).groups.length = (txs.length + 4) / 5 ∧
      (∀ k g, (batchLoop env txs 0 initialBatchState).groups[k]? = some g →
        g = (txs.drop (5 * k)).take 5 ∧ g.length ≤ 5 ∧
        (k + 1 < (batchLoop env txs 0 initialBatchState).groups.length → g.length = 5)) ∧
      (batchLoop env txs 0 initialBatchState).groups.flatten = txs ∧
      (processBatchTransactions env store ⟨.array txs⟩).log =
        (txs.enum).map (fun p => Event.build p.1 p.2) ∧
      ∃ r, (processBatchTransactions env store ⟨.array txs⟩).response = .results r ∧
        r.processed + r.failed = txs.length := by
  obtain ⟨j, hj, m, hjm, hg, hm, hr, hl⟩ := batchLoop_afterGroups env txs
  have hlen : (batchLoop env txs 0 initialBatchState).groups.length = m := by
    rw [hg]; simp
  simp only [batchSize] at hjm hm
  refine ⟨?_, ?_, ?_, ?_, ?_⟩
  · rw [hlen]; omega
  · intro k g hk
    rw [hlen]
    rw [hg, List.getElem?_map] at hk
    have hkm : k < m := by
      by_contra hc
      rw [List.getElem?_eq_none (by simp; omega)] at hk
      cases hk
    rw [List.getElem?_range hkm] at hk
    simp only [Option.map_some', Option.some.injEq, slice, batchSize] at hk
    subst hk
    refine ⟨rfl, ?_, ?_⟩
    · simp only [List.length_take]; omega
    · intro hk1
      simp only [List.length_take, List.length_drop]
      omega
  · rw [hg, slices_flatten, List.take_of_length_le (by simp only [batchSize]; omega)]
  · rw [processBatch_array]
    simp only [hl, buildEvents, List.enum]
    rw [List.take_of_length_le hj]
  · rw [processBatch_array]
    exact ⟨_, rfl, by rw [hr, Nat.min_eq_right hj]; simp⟩

/-! ## Calling `syncOfflineTransactionsToSolana` again -/

theorem build_mem_loopEvents (env : Env) (i j : Nat) (txs : List OfflineTransaction)
    (tx : OfflineTransaction) (hj : txs[j]? = some tx) :
    Event.build (i + j) tx ∈ loopEvents env i txs ∧
      ∀ t, createSolanaTransaction env (i + j) tx = .ok t →
        Event.send (i + j) t ∈ loopEvents env i txs := by
  induction txs generalizing i j with
  | nil => simp at hj
  | cons t0 rest ih =>
    cases j with
    | zero =>
      simp only [List.getElem?_cons_zero, Option.some.injEq] at hj
      subst hj
      simp only [Nat.add_zero]
      cases hc : createSolanaTransaction env i t0 with
      | error m => simp [loopEvents, hc]
      | ok t => simp [loopEvents, hc]
    | succ j =>
      simp only [List.getElem?_cons_succ] at hj
      have h := ih (i + 1) j hj
      rw [show i + 1 + j = i + (j + 1) by omega] at h
      cases hc : createSolanaTransaction env i t0 with
      | error m =>
        simp only [loopEvents, hc, List.mem_cons]
        exact ⟨Or.inr h.1, fun t ht => Or.inr (h.2 t ht)⟩
      | ok t1 =>
        simp only [loopEvents, hc, List.mem_cons]
        exact ⟨Or.inr (Or.inr h.1), fun t ht => Or.inr (Or.inr (h.2 t ht))⟩

/-- After a committed batch, a transaction that succeeded has its confirmed record and no
pending record. -/
theorem confirmed_after_commit (env : Env) (store s1 : Store)
    (txs : List OfflineTransaction) (i : Nat) (tx : OfflineTransaction) (sig : String)
    (hnodup : (ids txs).Nodup) (hi : txs[i]? = some tx)
    (hok : attempt env i tx = .ok sig)
    (hdone : (stageLoop env (finalResults env txs) txs).2 = none)
    (happly : applyOps env.serverTime store (stageLoop env (finalResults env txs) txs).1 =
      some s1) :
    s1.offline_transactions tx.id = none ∧
      s1.synced_transactions tx.id =
        some (resolveTimestamps env.serverTime (syncedRecord tx sig)) := by
  have hrec := (stageLoop_some env env.serverTime _ txs store s1 hnodup hdone happly).1 tx
    (List.getElem?_mem hi)
  obtain ⟨_, hp⟩ := recordsAfter_final_ok env env.serverTime txs i tx sig _ _ _ hnodup hi
    hok hrec
  simp only [Prod.mk.injEq] at hp
  exact hp

/-- A batch committed on a store without a pending record for `tx` can only have moved
`tx`: its attempt succeeded and its confirmed record was written. -/
theorem commit_without_pending (env : Env) (store s1 : Store)
    (txs : List OfflineTransaction) (i : Nat) (tx : OfflineTransaction)
    (hnodup : (ids txs).Nodup) (hi : txs[i]? = some tx)
    (hnone : store.offline_transactions tx.id = none)
    (hdone : (stageLoop env (finalResults env txs) txs).2 = none)
    (happly : applyOps env.serverTime store (stageLoop env (finalResults env txs) txs).1 =
      some s1) :
    ∃ sig, attempt env i tx = .ok sig := by
  have hrec := (stageLoop_some env env.serverTime _ txs store s1 hnodup hdone happly).1 tx
    (List.getElem?_mem hi)
  cases ha : attempt env i tx with
  | ok sig => exact ⟨sig, rfl⟩
  | error m =>
    obtain ⟨d, hd, _⟩ := recordsAfter_final_error env env.serverTime txs i tx m _ _ _ hnodup
      hi ha hrec
    rw [hnone] at hd
    cases hd

/-- C6, as the code has it. After a first call in which every transaction of a batch
with pairwise distinct ids succeeded and the commit was accepted, a second call with the
same batch makes no existence check: it calls the builder again for every transaction and
the submitter again for every transaction that builds. Whatever the second call meets, no
pending record reappears and every id of the batch keeps a confirmed record carrying the
fields of its transaction (id, customerId, vendorId, totalAmount and createdAt, each with
the value the transaction has) with status confirmed, whose solanaSignature is the one of the
first or of the second call; when the second commit is accepted, every confirmed record
of the batch is the one written by the second call, with the second signature. Records
of ids outside the batch are unchanged. -/
theorem second_sync_overwrites_confirmed (env1 env2 : Env) (store : Store)
    (txs : List OfflineTransaction) (hnodup : (ids txs).Nodup)
    (hall : ∀ i tx, txs[i]? = some tx → ∃ sig, attempt env1 i tx = .ok sig)
    (hcommit : Event.commit true ∈
      (syncOfflineTransactionsToSolana env1 store ⟨.array txs⟩).log) :
    (∀ i tx, txs[i]? = some tx →
      (syncOfflineTransactionsToSolana env2
          (syncOfflineTransactionsToSolana env1 store ⟨.array txs⟩).store
          ⟨.array txs⟩).store.offline_transactions tx.id = none ∧
      (∃ d sig,
        (syncOfflineTransactionsToSolana env2
          (syncOfflineTransactionsToSolana env1 store ⟨.array txs⟩).store
          ⟨.array txs⟩).store.synced_transactions tx.id = some d ∧
        (∀ k v, (k, v) ∈ tx.toDoc → getField d k = some v) ∧
        getField d "id" = some (Value.str tx.id) ∧
        getField d "customerId" = some (Value.str tx.customerId) ∧
        getField d "vendorId" = some (Value.str tx.vendorId) ∧
        getField d "totalAmount" = some (Value.num tx.totalAmount) ∧
        getField d "createdAt" = some (Value.timestamp tx.createdAt) ∧
        getField d "status" = some (Value.str "confirmed") ∧
        getField d "solanaSignature" = some (Value.str sig) ∧
        (attempt env1 i tx = .ok sig ∨ attempt env2 i tx = .ok sig)) ∧
      (Event.commit true ∈
          (syncOfflineTransactionsToSolana env2
            (syncOfflineTransactionsToSolana env1 store ⟨.array txs⟩).store
            ⟨.array txs⟩).log →
        ∃ sig, attempt env2 i tx = .ok sig ∧
          (syncOfflineTransactionsToSolana env2
            (syncOfflineTransactionsToSolana env1 store ⟨.array txs⟩).store
            ⟨.array txs⟩).store.synced_transactions tx.id =
              some (resolveTimestamps env2.serverTime (syncedRecord tx sig))) ∧
      Event.build i tx ∈
        (syncOfflineTransactionsToSolana env2
          (syncOfflineTransactionsToSolana env1 store ⟨.array txs⟩).store
          ⟨.array txs⟩).log ∧
      ∀ t, createSolanaTransaction env2 i tx = .ok t →
        Event.send i t ∈
          (syncOfflineTransactionsToSolana env2
            (syncOfflineTransactionsToSolana env1 store ⟨.array txs⟩).store
            ⟨.array txs⟩).log) ∧
    (Event.commit false ∈
        (syncOfflineTransactionsToSolana env2
          (syncOfflineTransactionsToSolana env1 store ⟨.array txs⟩).store
          ⟨.array txs⟩).log →
      (syncOfflineTransactionsToSolana env2
          (syncOfflineTransactionsToSolana env1 store ⟨.array txs⟩).store
          ⟨.array txs⟩).store =
        (syncOfflineTransactionsToSolana env1 store ⟨.array txs⟩).store) ∧
    ∀ id, id ∉ ids txs →
      (syncOfflineTransactionsToSolana env2
          (syncOfflineTransactionsToSolana env1 store ⟨.array txs⟩).store
          ⟨.array txs⟩).store.offline_transactions id =
        (syncOfflineTransactionsToSolana env1 store ⟨.array txs⟩).store.offline_transactions id ∧
      (syncOfflineTransactionsToSolana env2
          (syncOfflineTransactionsToSolana env1 store ⟨.array txs⟩).store
          ⟨.array txs⟩).store.synced_transactions id =
        (syncOfflineTransactionsToSolana env1 store ⟨.array txs⟩).store.synced_transactions id := by
  obtain ⟨s1, hdone1, happly1, hstore1⟩ := commit_some_of_log env1 store txs hnodup hcommit
  rw [hstore1]
  have hbuilds : ∀ i tx, txs[i]? = some tx →
      Event.build i tx ∈ (syncOfflineTransactionsToSolana env2 s1 ⟨.array txs⟩).log ∧
      ∀ t, createSolanaTransaction env2 i tx = .ok t →
        Event.send i t ∈ (syncOfflineTransactionsToSolana env2 s1 ⟨.array txs⟩).log := by
    intro i tx hi
    have h := build_mem_loopEvents env2 0 i txs tx hi
    rw [Nat.zero_add] at h
    rw [sync_array env2 s1 txs hnodup]
    exact ⟨List.mem_append_left _ h.1, fun t ht => List.mem_append_left _ (h.2 t ht)⟩
  rcases sync_cases env2 s1 txs hnodup with ⟨s2, hdone2, happly2, hs2, hno2⟩ | ⟨hs2, hno2⟩
  · rw [hs2]
    refine ⟨?_, fun hrej => absurd hrej hno2,
      (stageLoop_some env2 env2.serverTime _ txs s1 s2 hnodup hdone2 happly2).2⟩
    intro i tx hi
    obtain ⟨sig1, hok1⟩ := hall i tx hi
    obtain ⟨hoff, _⟩ := confirmed_after_commit env1 store s1 txs i tx sig1 hnodup hi hok1
      hdone1 happly1
    obtain ⟨sig2, hok2⟩ := commit_without_pending env2 s1 s2 txs i tx hnodup hi hoff hdone2
      happly2
    obtain ⟨hoff2, hsyn2⟩ := confirmed_after_commit env2 s1 s2 txs i tx sig2 hnodup hi hok2
      hdone2 happly2
    obtain ⟨h1, h2, h3, h4, h5⟩ := syncedRecord_named env2.serverTime tx sig2
    refine ⟨hoff2, ⟨_, sig2, hsyn2, ?_, h1, h2, h3, h4, h5, ?_, ?_, Or.inr hok2⟩,
      fun _ => ⟨sig2, hok2, hsyn2⟩, (hbuilds i tx hi).1, (hbuilds i tx hi).2⟩
    · intro k v hkv
      exact syncedRecord_fields env2.serverTime tx sig2 k v hkv
    · exact syncedRecord_status env2.serverTime tx sig2
    · exact syncedRecord_signature env2.serverTime tx sig2
  · rw [hs2]
    refine ⟨?_, fun _ => rfl, fun _ _ => ⟨rfl, rfl⟩⟩
    intro i tx hi
    obtain ⟨sig1, hok1⟩ := hall i tx hi
    obtain ⟨hoff, hsyn⟩ := confirmed_after_commit env1 store s1 txs i tx sig1 hnodup hi hok1
      hdone1 happly1
    obtain ⟨h1, h2, h3, h4, h5⟩ := syncedRecord_named env1.serverTime tx sig1
    refine ⟨hoff, ⟨_, sig1, hsyn, ?_, h1, h2, h3, h4, h5, ?_, ?_, Or.inl hok1⟩,
      fun hc2 => absurd hc2 hno2, (hbuilds i tx hi).1, (hbuilds i tx hi).2⟩
    · intro k v hkv
      exact syncedRecord_fields env1.serverTime tx sig1 k v hkv
    · exact syncedRecord_status env1.serverTime tx sig1
    · exact syncedRecord_signature env1.serverTime tx sig1

/-- C9, as the code has it. For the empty batch processBatchTransactions returns success
true, processed 0, failed 0 and an empty signatures map and touches nothing;
syncOfflineTransactionsToSolana returns success true, processed 0, an empty signatures map
and an empty errors list (its results object has no failed field), stages no write, but
still issues the commit of the empty write batch, which leaves the store as it is. -/
theorem empty_batch_is_success (env : Env) (store : Store) :
    (processBatchTransactions env store ⟨.array []⟩).response =
        .results { success := true, processed := 0, failed := 0, signatures := [] } ∧
      (processBatchTransactions env store ⟨.array []⟩).log = [] ∧
      (processBatchTransactions env store ⟨.array []⟩).store = store ∧
      (syncOfflineTransactionsToSolana env store ⟨.array []⟩).response =
        .results { success := true, signatures := [], errors := [], processed := 0 } ∧
      (syncOfflineTransactionsToSolana env store ⟨.array []⟩).log =
        [Event.commit env.commitAvailable] ∧
      (syncOfflineTransactionsToSolana env store ⟨.array []⟩).store = store := by
  have hb : batchLoop env [] 0 initialBatchState = initialBatchState := by
    rw [batchLoop]; simp
  refine ⟨?_, ?_, ?_, ?_, ?_, ?_⟩
  · rw [processBatch_array, hb]; rfl
  · rw [processBatch_array, hb]; rfl
  · rw [processBatch_array]
  · rw [sync_array_loop]; rfl
  · rw [sync_array_loop]
    cases ha : env.commitAvailable <;>
      simp [loopEvents, syncLoop, updateTransactionResults, stageLoop, commit, applyOps, ha]
  · rw [sync_array_loop]
    cases ha : env.commitAvailable <;>
      simp [syncLoop, updateTransactionResults, stageLoop, commit, applyOps, ha]

/-! ## The claims on sample inputs -/

theorem sync_success_is_confirmed_witness :
    (ids [txA, txB]).Nodup ∧
      Event.commit true ∈
        (syncOfflineTransactionsToSolana sampleEnv sampleStore ⟨.array [txA, txB]⟩).log ∧
      ∃ r d,
        (syncOfflineTransactionsToSolana sampleEnv sampleStore ⟨.array [txA, txB]⟩).response
          = .results r ∧
        getField r.signatures txA.id = some "mock_signature_1000" ∧
        (syncOfflineTransactionsToSolana sampleEnv sampleStore
          ⟨.array [txA, txB]⟩).store.synced_transactions txA.id = some d ∧
        getField d "id" = some (Value.str txA.id) ∧
        getField d "customerId" = some (Value.str txA.customerId) ∧
        getField d "vendorId" = some (Value.str txA.vendorId) ∧
        getField d "totalAmount" = some (Value.num txA.totalAmount) ∧
        getField d "createdAt" = some (Value.timestamp txA.createdAt) ∧
        getField d "solanaSignature" = some (Value.str "mock_signature_1000") ∧
        getField d "status" = some (Value.str "confirmed") ∧
        (syncOfflineTransactionsToSolana sampleEnv sampleStore
          ⟨.array [txA, txB]⟩).store.offline_transactions txA.id = none :=
  ⟨by decide, by decide,
    sync_success_is_confirmed sampleEnv sampleStore [txA, txB] 0 txA builtA
      "mock_signature_1000" (by decide) rfl rfl rfl (by decide)⟩

theorem sync_failure_is_marked_witness :
    (ids [txA, txB]).Nodup ∧
      createSolanaTransaction sampleEnv 1 txB =
        .error "Failed to create Solana transaction: Invalid public key input" ∧
      ∃ d message,
        (syncOfflineTransactionsToSolana sampleEnv sampleStore
          ⟨.array [txA, txB]⟩).store.offline_transactions txB.id = some d ∧
        getField d "syncStatus" = some (Value.str "failed") ∧
        getField d "errorMessage" = some (Value.str message) ∧ message ≠ "" ∧
        (syncOfflineTransactionsToSolana sampleEnv sampleStore
          ⟨.array [txA, txB]⟩).store.synced_transactions txB.id = none :=
  ⟨by decide, rfl,
    sync_failure_is_marked sampleEnv sampleStore [txA, txB] 1 txB
      "Failed to create Solana transaction: Invalid public key input" (by decide)
      (by
        intro t ht
        simp only [List.mem_cons, List.mem_singleton, List.not_mem_nil, or_false] at ht
        rcases ht with rfl | rfl
        · exact ⟨⟨_, rfl⟩, rfl⟩
        · exact ⟨⟨_, rfl⟩, rfl⟩)
      rfl (Or.inl rfl) (by decide)⟩

theorem sync_preserves_exactly_one_witness :
    exactlyOneOf (fun id => id = "a" ∨ id = "b") sampleStore ∧
      exactlyOneOf (fun id => id = "a" ∨ id = "b")
        (syncOfflineTransactionsToSolana sampleEnv sampleStore ⟨.array [txA, txB]⟩).store :=
  have hinv : exactlyOneOf (fun id => id = "a" ∨ id = "b") sampleStore := by
    intro id hid
    rcases hid with rfl | rfl <;> (unfold inExactlyOne; decide)
  ⟨hinv,
    (sync_preserves_exactly_one sampleEnv sampleStore [txA, txB] (fun id => id = "a" ∨ id = "b")
      hinv (by decide)
      (by
        intro t ht
        simp only [List.mem_cons, List.mem_singleton, List.not_mem_nil, or_false] at ht
        rcases ht with rfl | rfl
        · exact ⟨_, rfl⟩
        · exact ⟨_, rfl⟩)).1⟩

theorem sync_isolates_failures_witness :
    (ids [txA, txB]).Nodup ∧ "__proto__" ∉ ids [txA, txB] ∧
      (([txA, txB].enum).filter (fails sampleEnv)).length = 1 ∧
      ∃ r,
        (syncOfflineTransactionsToSolana sampleEnv sampleStore ⟨.array [txA, txB]⟩).response
          = .results r ∧
        r.success = true ∧ r.processed = 1 ∧ r.errors.length = 1 :=
  ⟨by decide, by decide, rfl,
    (sync_isolates_failures sampleEnv sampleStore [txA, txB] 1 (by decide) (by decide)
      rfl).elim
      fun r h => ⟨r, h.1, h.2.1, h.2.2.1, h.2.2.2.2.2.2.2.1⟩⟩

/-- C4 fails as stated: for the batch of the single transaction with id __proto__, which
is built and sent (N = 1, K = 0), the call returns processed 1 with an empty signatures
map: the assignment results.signatures["__proto__"] = signature stores nothing. -/
theorem proto_id_is_not_stored :
    (ids [txP]).Nodup ∧ (([txP].enum).filter (fails sampleEnv)).length = 0 ∧
      (syncOfflineTransactionsToSolana sampleEnv sampleStore ⟨.array [txP]⟩).response =
        .results { success := true, signatures := [], errors := [], processed := 1 } := by
  decide

theorem sync_rejected_commit_keeps_store_witness :
    Event.commit false ∈
        (syncOfflineTransactionsToSolana offlineEnv sampleStore ⟨.array [txA]⟩).log ∧
      (syncOfflineTransactionsToSolana offlineEnv sampleStore ⟨.array [txA]⟩).store =
        sampleStore :=
  ⟨by decide, (sync_rejected_commit_keeps_store offlineEnv sampleStore [txA] (by decide)).1⟩

/-- C7 fails as stated: with a backend that rejects the commit, the call for the batch
of the single transaction a logs the rejected commit and still returns the results object
with success true, not a response with success false. -/
theorem rejected_commit_reports_success :
    Event.commit false ∈
        (syncOfflineTransactionsToSolana offlineEnv sampleStore ⟨.array [txA]⟩).log ∧
      (syncOfflineTransactionsToSolana offlineEnv sampleStore ⟨.array [txA]⟩).response =
        .results { success := true, signatures := [("a", "mock_signature_1000")],
                   errors := [], processed := 1 } := by
  decide

theorem invalid_transactions_rejected_witness :
    (TransactionsField.str "oops").isArray = false ∧
      (syncOfflineTransactionsToSolana sampleEnv sampleStore ⟨.str "oops"⟩).response =
        .failure "Invalid transactions data" ∧
      (processBatchTransactions sampleEnv sampleStore ⟨.undefined⟩).response =
        .failure "Invalid transactions data" :=
  ⟨rfl, (invalid_transactions_rejected sampleEnv sampleStore ⟨.str "oops"⟩ (Or.inr rfl)).1,
    (invalid_transactions_rejected sampleEnv sampleStore ⟨.undefined⟩ (Or.inl rfl)).2.2.2.1⟩

theorem second_sync_overwrites_confirmed_witness :
    Event.commit true ∈
        (syncOfflineTransactionsToSolana sampleEnv sampleStore ⟨.array [txA]⟩).log ∧
      (syncOfflineTransactionsToSolana laterEnv
        (syncOfflineTransactionsToSolana sampleEnv sampleStore ⟨.array [txA]⟩).store
        ⟨.array [txA]⟩).store.offline_transactions txA.id = none ∧
      Event.build 0 txA ∈
        (syncOfflineTransactionsToSolana laterEnv
          (syncOfflineTransactionsToSolana sampleEnv sampleStore ⟨.array [txA]⟩).store
          ⟨.array [txA]⟩).log :=
  have h := (second_sync_overwrites_confirmed sampleEnv laterEnv sampleStore [txA] (by decide)
    (by
      intro i tx hi
      cases i with
      | zero =>
        simp only [List.getElem?_cons_zero, Option.some.injEq] at hi
        subst hi
        exact ⟨"mock_signature_1000", rfl⟩
      | succ j => simp at hi)
    (by decide)).1 0 txA rfl
  ⟨by decide, h.1, h.2.2.2.1⟩

/-- C6 fails as stated: after a first call that confirmed the single transaction a, a
second call with the same batch at a later clock reading submits a again and replaces its
confirmed record, whose solanaSignature changes from mock_signature_1000 to
mock_signature_5000. -/
theorem second_sync_resubmits :
    (Event.commit true ∈
        (syncOfflineTransactionsToSolana sampleEnv sampleStore ⟨.array [txA]⟩).log ∧
      (syncOfflineTransactionsToSolana sampleEnv sampleStore ⟨.array [txA]⟩).response =
        .results { success := true, signatures := [("a", "mock_signature_1000")],
                   errors := [], processed := 1 }) ∧
      (syncOfflineTransactionsToSolana laterEnv
          (syncOfflineTransactionsToSolana sampleEnv sampleStore ⟨.array [txA]⟩).store
          ⟨.array [txA]⟩).store.synced_transactions "a" ≠
        (syncOfflineTransactionsToSolana sampleEnv sampleStore
          ⟨.array [txA]⟩).store.synced_transactions "a" ∧
      ((syncOfflineTransactionsToSolana laterEnv
          (syncOfflineTransactionsToSolana sampleEnv sampleStore ⟨.array [txA]⟩).store
          ⟨.array [txA]⟩).store.synced_transactions "a").bind
            (fun d => getField d "solanaSignature") =
        some (Value.str "mock_signature_5000") ∧
      Event.send 0 builtA ∈
        (syncOfflineTransactionsToSolana laterEnv
          (syncOfflineTransactionsToSolana sampleEnv sampleStore ⟨.array [txA]⟩).store
          ⟨.array [txA]⟩).log := by
  decide

/-- C9 fails as stated: for the empty batch syncOfflineTransactionsToSolana issues a
commit (of an empty write batch). -/
theorem empty_batch_commits :
    Event.commit true ∈
      (syncOfflineTransactionsToSolana sampleEnv sampleStore ⟨.array []⟩).log := by
  decide

/-- C5 fails on the code: the helper createSolanaTransaction returns a web3.js
Transaction, which has no success property, so processBatchTransactions counts a
transaction that was built as failed. For the batch of the single transaction a, which
is built, the report has processed 0, failed 1 and an empty signatures map. -/
theorem processBatch_counts_built_as_failed :
    createSolanaTransaction sampleEnv 0 txA = .ok builtA ∧
      (processBatchTransactions sampleEnv sampleStore ⟨.array [txA]⟩).response =
        .results { success := true, processed := 0, failed := 1, signatures := [] } :=
  ⟨rfl, by rw [processBatch_array, processBatch_results]; rfl⟩

end ISizaPay
